import Mathlib

/-!
Verification development for the `tempita.py` template engine
(`SeriesInfoPanel/tempita.py`): a shallow embedding of its lexer,
whitespace trimmer, parser and tree-walking interpreter, together with
theorems settling the specification claims.

Strings are modelled as `List Char` (`Str`).  Mutable Python state
(namespaces, the output buffer, the `defs` mapping) is threaded
explicitly; Python exceptions are modelled with `Except` / a control
result type.  The general-purpose Python evaluator used by `_eval` /
`_exec` is an external collaborator and is modelled as a parameter
(`Ev`).
-/

/-- Python strings are modelled as lists of characters. -/
abbrev Str := List Char

/-- Shorthand to write a modelled Python string from a Lean literal. -/
def str (s : String) : Str := s.data

/-- A 1-indexed (line, column) source position, as used by `tempita`. -/
abbrev Pos := Nat × Nat

/-- The characters Python's `str.strip()` removes. -/
def pyIsSpace (c : Char) : Bool :=
  c = ' ' ∨ c = '\t' ∨ c = '\n' ∨ c = '\r' ∨ c = '\x0b' ∨ c = '\x0c'

/-- Python `s.strip()`: drop leading and trailing whitespace. -/
def pyStrip (s : Str) : Str :=
  ((s.dropWhile pyIsSpace).reverse.dropWhile pyIsSpace).reverse

/-- Decimal digit to character. -/
def digitCh (d : Nat) : Char :=
  match d with
  | 0 => '0' | 1 => '1' | 2 => '2' | 3 => '3' | 4 => '4'
  | 5 => '5' | 6 => '6' | 7 => '7' | 8 => '8' | _ => '9'

/-- Fuelled decimal rendering of a natural number (kernel-reducible). -/
def natStrAux : Nat → Nat → Str
  | 0, _ => []
  | f + 1, n => if n < 10 then [digitCh n] else natStrAux f (n / 10) ++ [digitCh (n % 10)]

/-- Decimal rendering of a natural number, modelling Python `'%s' % n`. -/
def natStr (n : Nat) : Str := natStrAux (n + 1) n

/-- Python `str.splitlines()` (restricted to the line boundaries
`\n`, `\r\n` and `\r` that can occur in template text): the list of
lines, a trailing line-break producing no extra empty line. -/
def pySplitlines : Str → List Str
  | [] => []
  | c :: rest =>
    if c = '\r' then
      match rest with
      | '\n' :: rest2 => [] :: pySplitlines rest2
      | other => [] :: pySplitlines other
    else if c = '\n' then [] :: pySplitlines rest
    else
      match pySplitlines rest with
      | [] => [[c]]
      | l :: ls => (c :: l) :: ls

/-- `find_position` (tempita.py lines 561-564): `(line, column)` of an
index into the source, computed from `splitlines` of the prefix. -/
def findPosition (s : Str) (index : Nat) (lineOffset : Nat) : Pos :=
  let leading := pySplitlines (s.take index)
  (leading.length + lineOffset, (leading.getLastD []).length + 1)

/-- The characters of `t` after its last newline (`t` itself when it
has no newline). -/
def afterLastNL : Str → Str
  | [] => []
  | c :: rest =>
    if '\n' ∈ rest then afterLastNL rest
    else if c = '\n' then rest else c :: rest

/-- Number of newline characters in a string. -/
def countNL (t : Str) : Nat := t.count '\n'

/-- A lexer token (tempita chunks): a literal text span or a directive
with the position the lexer recorded for it. -/
inductive Tok where
  | lit (s : Str)
  | dir (s : Str) (pos : Pos)
deriving DecidableEq, Repr

/-- A lexer / parser error: message and the position attached to it,
modelling a raised `TemplateError`. -/
structure TemplateErr where
  msg : Str
  pos : Pos
deriving DecidableEq, Repr

/-- All matches of `token_re` (the regex alternation of the two
delimiters) in the text starting at absolute index `i`, scanning left
to right; `true` marks an opening delimiter. -/
def tokenMatches : Str → Nat → List (Nat × Bool)
  | [], _ => []
  | [_], _ => []
  | c :: d :: rest2, i =>
    if c = '{' ∧ d = '{' then (i, true) :: tokenMatches rest2 (i + 2)
    else if c = '}' ∧ d = '}' then (i, false) :: tokenMatches rest2 (i + 2)
    else tokenMatches (d :: rest2) (i + 1)

/-- The loop body of `lex` (tempita.py lines 471-499): walks the
delimiter matches keeping the in-expression flag, the chunks built so
far, the index after the previous match and that match's position. -/
def lexLoop (s : Str) :
    List (Nat × Bool) → Bool → List Tok → Nat → Pos → Except TemplateErr (List Tok)
  | [], inExpr, chunks, last, lastPos =>
    if inExpr then
      .error ⟨(str ("No \x7d\x7d to finish last expression")), lastPos⟩
    else
      let part := s.drop last
      .ok (chunks ++ (if part = [] then [] else [Tok.lit part]))
  | (j, isOpen) :: ms, inExpr, chunks, last, lastPos =>
    let pos := findPosition s (j + 2) 0
    if isOpen ∧ inExpr then
      .error ⟨(str ("\x7b\x7b inside expression")), pos⟩
    else if ¬ isOpen ∧ ¬ inExpr then
      .error ⟨(str ("\x7d\x7d outside expression")), pos⟩
    else
      let part := (s.drop last).take (j - last)
      if isOpen then
        lexLoop s ms true (chunks ++ (if part = [] then [] else [Tok.lit part])) (j + 2) pos
      else
        lexLoop s ms false (chunks ++ [Tok.dir (pyStrip part) lastPos]) (j + 2) pos

/-- `lex` without the trimming pass (tempita.py lines 449-499,
`trim_whitespace=False`). -/
def lexRaw (s : Str) : Except TemplateErr (List Tok) :=
  lexLoop s (tokenMatches s 0) false [] 0 (1, 1)

/-- `statement_re` together with the `single_statements` list
(tempita.py lines 504-505): does a directive's text start a statement
or is it a bare block terminator? -/
def isStatementTok (item : Str) : Bool :=
  (str ("if ")).isPrefixOf item ∨ (str ("elif ")).isPrefixOf item ∨
  (str ("else ")).isPrefixOf item ∨ (str ("for ")).isPrefixOf item ∨
  (str ("def ")).isPrefixOf item ∨ (str ("inherit ")).isPrefixOf item ∨
  (str ("default ")).isPrefixOf item ∨ (str ("py:")).isPrefixOf item ∨
  item = (str ("endif")) ∨ item = (str ("endfor")) ∨ item = (str ("enddef")) ∨
  item = (str ("continue")) ∨ item = (str ("break"))

/-- After the tabs-and-spaces run of a `trail_whitespace_re` match the
anchor must hold: Python's `$` matches at the end of the string or
just before a trailing newline. -/
def trailTailEnd (r : Str) : Bool :=
  let e := r.dropWhile (fun c => c = '\t' ∨ c = ' ')
  e = [] ∨ e = ['\n']

/-- The tail of a `trail_whitespace_re` match after its newline: an
optional carriage return, then only tabs and spaces up to the `$`
anchor (end of string, or just before a final newline). -/
def trailTailOk : Str → Bool
  | '\r' :: rest => trailTailEnd rest
  | rest => trailTailEnd rest

/-- `trail_whitespace_re.search` (pattern whose text is a newline, an
optional carriage return, then tabs or spaces up to the end): start
index of the leftmost match, if any. -/
def trailWsStart : Str → Option Nat
  | [] => none
  | '\n' :: rest =>
    if trailTailOk rest then some 0 else (trailWsStart rest).map (· + 1)
  | _ :: rest => (trailWsStart rest).map (· + 1)

/-- `lead_whitespace_re.search` (pattern anchored at the start: tabs or
spaces then a newline): the end index of the match, if any. -/
def leadWsEnd (s : Str) : Option Nat :=
  let k := (s.takeWhile (fun c => c = '\t' ∨ c = ' ')).length
  match s.drop k with
  | '\n' :: _ => some (k + 1)
  | _ => none

/-- The update of the preceding literal in one `trim_lex` step
(tempita.py lines 543-550): wholly blank and first, it becomes empty;
otherwise it is cut just after the newline where its trailing
whitespace run begins. -/
def trimPrevUpd (ts : List Tok) (i : Nat) (prev : Str) : List Tok :=
  if prev = [] then ts
  else if i = 1 ∧ pyStrip prev = [] then ts.set 0 (Tok.lit [])
  else match trailWsStart prev with
       | some m => ts.set (i - 1) (Tok.lit (prev.take (m + 1)))
       | none => ts

/-- The update of the following literal in one `trim_lex` step
(tempita.py lines 551-557): wholly blank and last, it becomes empty;
otherwise its leading whitespace-newline run is dropped. -/
def trimNextUpd (ts : List Tok) (i n : Nat) (next : Str) : List Tok :=
  if next = [] then ts
  else if i + 2 = n ∧ pyStrip next = [] then ts.set (i + 1) (Tok.lit [])
  else match leadWsEnd next with
       | some e => ts.set (i + 1) (Tok.lit (next.drop e))
       | none => ts

/-- One index step of `trim_lex` (tempita.py lines 520-557): when the
directive at index `i` is a statement whose neighbouring literals show
it stands on a line by itself, trim the preceding and following
literals in place. -/
def trimStep (ts : List Tok) (i : Nat) : List Tok :=
  match ts.get? i with
  | none => ts
  | some (Tok.lit _) => ts
  | some (Tok.dir item _) =>
    if ¬ isStatementTok item then ts
    else
      match (if i = 0 then some []
             else match ts.get? (i - 1) with
                  | some (Tok.lit s) => some s
                  | _ => none),
            (if i + 1 ≥ ts.length then some []
             else match ts.get? (i + 1) with
                  | some (Tok.lit s) => some s
                  | _ => none) with
      | some prev, some next =>
        if (prev = [] ∨ (trailWsStart prev).isSome = true ∨ (i = 1 ∧ pyStrip prev = [])) ∧
           (next = [] ∨ (leadWsEnd next).isSome = true ∨
             (i + 2 = ts.length ∧ pyStrip next = [])) then
          trimNextUpd (trimPrevUpd ts i prev) i ts.length next
        else ts
      | _, _ => ts

/-- `trim_lex` (tempita.py lines 509-558): the in-place pass over all
indices of the token list. -/
def trimLex (ts : List Tok) : List Tok :=
  (List.range ts.length).foldl trimStep ts

/-- `lex` with its default `trim_whitespace=True` (tempita.py line
500-502). -/
def lexTokens (s : Str) : Except TemplateErr (List Tok) :=
  (lexRaw s).map trimLex

/-- The directive tokens of a chunk list, in order (literals
dropped). -/
def dirToks : List Tok → List Tok
  | [] => []
  | Tok.lit _ :: rest => dirToks rest
  | Tok.dir d p :: rest => Tok.dir d p :: dirToks rest

/-- The opening/closing delimiter pairs of a match list: on the
strictly alternating match lists of a successful lex run this pairs
each opening delimiter with the closing delimiter of the same
directive; stray matches (which make `lex` raise) are skipped. -/
def delimPairs : List (Nat × Bool) → List (Nat × Nat)
  | (j, true) :: (k, false) :: ms => (j, k) :: delimPairs ms
  | _ :: ms => delimPairs ms
  | [] => []

/-- The directive token determined by one delimiter pair `(j, k)`: its
text is the stripped source text strictly between the two delimiters,
its position is `find_position` at the end of its own opening
delimiter's match (index `j + 2`). -/
def dirOfPair (s : Str) (jk : Nat × Nat) : Tok :=
  Tok.dir (pyStrip ((s.drop (jk.1 + 2)).take (jk.2 - (jk.1 + 2))))
    (findPosition s (jk.1 + 2) 0)

/-- The directive tokens a lex run over the given matches produces:
one per delimiter pair, in order. -/
def dirsSpec (s : Str) (ms : List (Nat × Bool)) : List Tok :=
  (delimPairs ms).map (dirOfPair s)

/-- `dirsSpec` generalized to a mid-run state of the `lex` loop: when
the loop is inside an open directive, the pending directive closes at
the next closing match, with text from `last` and the saved
`lastPos`. -/
def dirsSpecFrom (s : Str) (inE : Bool) (last : Nat) (lastPos : Pos)
    (ms : List (Nat × Bool)) : List Tok :=
  if inE then
    match ms with
    | (k, false) :: ms2 =>
      Tok.dir (pyStrip ((s.drop last).take (k - last))) lastPos :: dirsSpec s ms2
    | other => dirsSpec s other
  else dirsSpec s ms

example : lexRaw (str ("hey")) = .ok [Tok.lit (str ("hey"))] := rfl
example : lexRaw (str ("hey \x7b\x7byou\x7d\x7d")) =
    .ok [Tok.lit (str ("hey ")), Tok.dir (str ("you")) (1, 7)] := rfl
example : lexRaw (str ("hey \x7b\x7b")) =
    .error ⟨(str ("No \x7d\x7d to finish last expression")), (1, 7)⟩ := rfl
example : lexRaw (str ("hey \x7d\x7d")) =
    .error ⟨(str ("\x7d\x7d outside expression")), (1, 7)⟩ := rfl
example : lexRaw (str ("hey \x7b\x7b \x7b\x7b")) =
    .error ⟨(str ("\x7b\x7b inside expression")), (1, 10)⟩ := rfl
example : lexRaw (str ("\x7b\x7bif x\x7d\x7d\nx\n\x7b\x7bendif\x7d\x7d\ny")) =
    .ok [Tok.dir (str ("if x")) (1, 3), Tok.lit (str ("\nx\n")),
         Tok.dir (str ("endif")) (3, 3), Tok.lit (str ("\ny"))] := rfl
example : lexTokens (str ("\x7b\x7bif x\x7d\x7d\nx\n\x7b\x7bendif\x7d\x7d\ny")) =
    .ok [Tok.dir (str ("if x")) (1, 3), Tok.lit (str ("x\n")),
         Tok.dir (str ("endif")) (3, 3), Tok.lit (str ("y"))] := rfl

/-- A Python value as produced and consumed by the interpreter.  The
evaluator collaborator may also return `vmark` values, opaque to the
interpreter (e.g. callables); `vempty` is the shared `Empty` sentinel
(tempita.py lines 428-442). -/
inductive Value where
  | vnone
  | vbool (b : Bool)
  | vint (n : Int)
  | vstr (s : Str)
  | vlist (xs : List Value)
  | vempty
  | vmark (tag : Str)

/-- A Python namespace / dictionary: an insertion-ordered association
list with unique keys maintained by `dictSet`. -/
abbrev Ns := List (Str × Value)

/-- Dictionary lookup (`d[k]`, first matching key). -/
def dictGet : Ns → Str → Option Value
  | [], _ => none
  | (k0, v0) :: rest, k => if k0 = k then some v0 else dictGet rest k

/-- Membership test (`k in d`). -/
def dictHas (d : Ns) (k : Str) : Bool := (dictGet d k).isSome

/-- Dictionary store (`d[k] = v`): replace in place, else append. -/
def dictSet : Ns → Str → Value → Ns
  | [], k, v => [(k, v)]
  | (k0, v0) :: rest, k, v =>
    if k0 = k then (k0, v) :: rest else (k0, v0) :: dictSet rest k v

/-- `d.update(other)`: store every pair of `other` in order. -/
def dictUpdate (d other : Ns) : Ns :=
  other.foldl (fun acc p => dictSet acc p.1 p.2) d

/-- Remove a key (`d.pop(k)`'s effect on the dictionary). -/
def dictRemove : Ns → Str → Ns
  | [], _ => []
  | (k0, v0) :: rest, k =>
    if k0 = k then dictRemove rest k else (k0, v0) :: dictRemove rest k

mutual
/-- Python `repr` for the values of the model (used when a list is
stringified). -/
def pyRepr (v : Value) : Str :=
  match v with
  | .vnone => str ("None")
  | .vbool b => if b then str ("True") else str ("False")
  | .vint n => if n < 0 then '-' :: natStr n.natAbs else natStr n.natAbs
  | .vstr s => '\'' :: s ++ ['\'']
  | .vlist xs => '[' :: pyReprList xs ++ [']']
  | .vempty => str ("Empty")
  | .vmark tag => tag

/-- Comma-separated `repr` concatenation used by the list `repr`. -/
def pyReprList (xs : List Value) : Str :=
  match xs with
  | [] => []
  | [x] => pyRepr x
  | x :: y :: rest => pyRepr x ++ (str (", ")) ++ pyReprList (y :: rest)
end

/-- `ToString` (tempita.py lines 811-816): `None` becomes the empty
string, non-strings are rendered with `str`, strings pass through.
`str(Empty)` is the empty string through `_Empty.__str__`. -/
def pyToString (v : Value) : Str :=
  match v with
  | .vnone => []
  | .vstr s => s
  | .vempty => []
  | .vbool b => pyRepr (.vbool b)
  | .vint n => pyRepr (.vint n)
  | .vlist xs => pyRepr (.vlist xs)
  | .vmark tag => tag

/-- Python truthiness of a model value (`_Empty.__nonzero__` makes the
sentinel falsy). -/
def pyTruthy (v : Value) : Bool :=
  match v with
  | .vnone => false
  | .vbool b => b
  | .vint n => n ≠ 0
  | .vstr s => s ≠ []
  | .vlist xs => ¬ xs.isEmpty
  | .vempty => false
  | .vmark _ => true

/-- Iterating a model value (`for item in v`): lists yield their
elements, strings their one-character strings, the `Empty` sentinel an
empty sequence (`_Empty.__iter__`); other values are not iterable. -/
def pyIterate (v : Value) : Option (List Value) :=
  match v with
  | .vlist xs => some xs
  | .vstr s => some (s.map (fun c => Value.vstr [c]))
  | .vempty => some []
  | _ => none

/-- `len(v)` for a model value: defined for lists and strings only. -/
def pyLen (v : Value) : Option Nat :=
  match v with
  | .vlist xs => some xs.length
  | .vstr s => some s.length
  | _ => none

/-- `_Empty.__call__` (tempita.py lines 429-430): calling the sentinel
with any arguments returns the sentinel itself. -/
def emptyCall (args : List Value) : Value :=
  match args with
  | _ => Value.vempty

/-- `TemplateError.__str__` (tempita.py lines 50-57): the message, a
position segment when a position was attached, and a name segment when
the template name is truthy (present and non-empty). -/
def templateErrorStr (message : Str) (position : Option Pos) (name : Option Str) : Str :=
  let m := message
  let m := match position with
    | some (l, c) =>
      m ++ (str (" at line ")) ++ natStr l ++ (str (" column ")) ++ natStr c
    | none => m
  match name with
  | some n => if n = [] then m else m ++ (str (" in ")) ++ n
  | none => m

/-- `Template._add_line_info` (tempita.py lines 298-303): the wrapper
applied to evaluator failure messages, using an `in file` name
segment. -/
def addLineInfo (msg : Str) (pos : Pos) (name : Option Str) : Str :=
  let m := msg ++ (str (" at line ")) ++ natStr pos.1 ++ (str (" column ")) ++ natStr pos.2
  match name with
  | some n => if n = [] then m else m ++ (str (" in file ")) ++ n
  | none => m

/-- The attribute dictionary of the `TemplateObject` built by
`_interpret_inherit` (tempita.py lines 171-174 with 413-418): the
constructor stores the mangled name field and the `get` wrapper, then
each `defs` entry is stored, then the rendered body.  The `get`
attribute holds the `TemplateObjectGetter`; it is modelled by the
opaque marker value (access through it is `getterGetAttr`). -/
def buildSelfAttrs (tname : Option Str) (defs : Ns) (body : Str) : Ns :=
  let nameV : Value := match tname with | some n => .vstr n | none => .vnone
  let base : Ns := [((str ("_TemplateObject__name")), nameV),
                    ((str ("get")), .vmark (str ("<getter>")))]
  dictSet (dictUpdate base defs) (str ("body")) (.vstr body)

/-- Attribute access on the `TemplateObject` itself: a plain instance
dictionary lookup; `none` models the `AttributeError` Python raises
for a missing attribute. -/
def tobjGetAttr (attrs : Ns) (a : Str) : Option Value := dictGet attrs a

/-- `TemplateObjectGetter.__getattr__` (tempita.py lines 423-424):
`getattr(obj, attr, Empty)` — the object's attribute when bound, the
shared `Empty` sentinel otherwise. -/
def getterGetAttr (attrs : Ns) (a : Str) : Value :=
  (tobjGetAttr attrs a).getD Value.vempty

/-- An AST node as produced by `parse` (tempita.py lines 566-773).
A `condN` branch is `(kind, pos, test, body)` with `test = none` only
for an `else` branch. -/
inductive Node where
  | lit (s : Str)
  | exprN (pos : Pos) (code : Str)
  | py (pos : Pos) (code : Str)
  | contN (pos : Pos)
  | brkN (pos : Pos)
  | forN (pos : Pos) (vars : List Str) (iter : Str) (body : List Node)
  | condN (pos : Pos) (branches : List (Str × Pos × Option Str × List Node))
  | defaultN (pos : Pos) (var : Str) (code : Str)
  | inheritN (pos : Pos) (code : Str)
  | commentN (pos : Pos) (text : Str)

/-- One `if` / `elif` / `else` branch of a `condN` node. -/
abbrev Branch := Str × Pos × Option Str × List Node

/-- Python `s.split(sep)` for a one-character separator: every
occurrence splits, empty parts included. -/
def pySplitChar (sep : Char) : Str → List Str
  | [] => [[]]
  | c :: rest =>
    if c = sep then [] :: pySplitChar sep rest
    else match pySplitChar sep rest with
         | [] => [[c]]
         | l :: ls => (c :: l) :: ls

/-- Python `s.split(sep, 1)`: the parts before and after the first
occurrence of the separator, when present. -/
def splitOnce (sep : Char) : Str → Option (Str × Str)
  | [] => none
  | c :: rest =>
    if c = sep then some ([], rest)
    else (splitOnce sep rest).map (fun p => (c :: p.1, p.2))

/-- Python `s.split(None, 1)` on a string with no leading whitespace:
the first whitespace-delimited word and the remainder after the
whitespace run that follows it. -/
def splitWsOnce (s : Str) : Str × Str :=
  let w := s.takeWhile (fun c => ¬ pyIsSpace c)
  (w, (s.drop w.length).dropWhile pyIsSpace)

/-- Length of the leading whitespace run. -/
def wsRunLen (s : Str) : Nat := (s.takeWhile pyIsSpace).length

/-- A match of `in_re` (whitespace, the word `in`, whitespace) anchored
at the start of `s`: its end index, if it matches there. -/
def inMatchAt (s : Str) : Option Nat :=
  let r := wsRunLen s
  if r = 0 then none
  else match s.drop r with
       | 'i' :: 'n' :: rest2 =>
         let u := wsRunLen rest2
         if u = 0 then none else some (r + 2 + u)
       | _ => none

/-- `in_re.search`: leftmost match of whitespace-`in`-whitespace,
returned as its (start, end) index pair. -/
def inSearch : Str → Option (Nat × Nat)
  | [] => none
  | c :: rest =>
    match inMatchAt (c :: rest) with
    | some e => some (0, e)
    | none => (inSearch rest).map (fun p => (p.1 + 1, p.2 + 1))

/-- `var_re`: a valid (ASCII) variable name for `\x7b\x7bdefault\x7d\x7d`. -/
def varReOk : Str → Bool
  | [] => false
  | c :: rest => (c.isAlpha ∨ c = '_') ∧ rest.all (fun d => d.isAlpha ∨ d.isDigit ∨ d = '_')

/-- Error used when the parsing fuel runs out (never reached for fuel
at least the token count; Python's recursion has no such bound). -/
def fuelErr : TemplateErr := ⟨(str ("recursion limit")), (0, 0)⟩

mutual
/-- `parse_expr` (tempita.py lines 623-671): dispatch on one token. -/
def parseExpr (nm : Option Str) (fuel : Nat) (tokens : List Tok) (ctx : List Str) :
    Except TemplateErr (Node × List Tok) :=
  match fuel, tokens with
  | 0, _ => .error fuelErr
  | _ + 1, [] => .error ⟨(str ("no tokens")), (0, 0)⟩
  | _ + 1, Tok.lit s :: rest => .ok (.lit s, rest)
  | f + 1, Tok.dir raw pos :: rest =>
    let expr := pyStrip raw
    if (str ("py:")).isPrefixOf expr then
      let e1 := (expr.drop 3).dropWhile (fun c => c = ' ' ∨ c = '\t')
      match e1 with
      | '\n' :: _ =>
        let e2 := e1.dropWhile (fun c => c = '\r' ∨ c = '\n')
        let e3 := if '\r' ∈ e2 then e2.filter (fun c => ¬ c = '\r') else e2
        .ok (.py pos (e3 ++ ['\n']), rest)
      | '\r' :: _ =>
        let e2 := e1.dropWhile (fun c => c = '\r' ∨ c = '\n')
        let e3 := if '\r' ∈ e2 then e2.filter (fun c => ¬ c = '\r') else e2
        .ok (.py pos (e3 ++ ['\n']), rest)
      | _ =>
        if '\n' ∈ e1 then
          .error ⟨(str ("Multi-line py blocks must start with a newline")), pos⟩
        else .ok (.py pos e1, rest)
    else if expr = (str ("continue")) ∨ expr = (str ("break")) then
      if ¬ ctx.contains (str ("for")) then
        .error ⟨(str ("continue outside of for loop")), pos⟩
      else if expr = (str ("continue")) then .ok (.contN pos, rest)
      else .ok (.brkN pos, rest)
    else if (str ("if ")).isPrefixOf expr then
      parseCond nm f (Tok.dir raw pos :: rest) ctx
    else if (str ("elif ")).isPrefixOf expr ∨ expr = (str ("else")) then
      .error ⟨(splitWsOnce expr).1 ++ (str (" outside of an if block")), pos⟩
    else if expr = (str ("if")) ∨ expr = (str ("elif")) ∨ expr = (str ("for")) then
      .error ⟨expr ++ (str (" with no expression")), pos⟩
    else if expr = (str ("endif")) ∨ expr = (str ("endfor")) ∨ expr = (str ("enddef")) then
      .error ⟨(str ("Unexpected ")) ++ expr, pos⟩
    else if (str ("for ")).isPrefixOf expr then
      parseFor nm f (Tok.dir raw pos :: rest) ctx
    else if (str ("default ")).isPrefixOf expr then
      parseDefault nm f (Tok.dir raw pos :: rest) ctx
    else if (str ("inherit ")).isPrefixOf expr then
      parseInherit nm f (Tok.dir raw pos :: rest) ctx
    else if (str ("#")).isPrefixOf expr then
      .ok (.commentN pos raw, rest)
    else
      .ok (.exprN pos raw, rest)
termination_by structural fuel

/-- `parse_cond` (tempita.py lines 673-686): set up the branch loop,
extending the context with an `if` marker. -/
def parseCond (nm : Option Str) (fuel : Nat) (tokens : List Tok) (ctx : List Str) :
    Except TemplateErr (Node × List Tok) :=
  match fuel with
  | 0 => .error fuelErr
  | f + 1 =>
    let start : Pos := match tokens with
      | Tok.dir _ p :: _ => p
      | _ => (0, 0)
    parseCondLoop nm f start [] tokens (ctx ++ [(str ("if"))])
termination_by structural fuel

/-- The `while 1` loop of `parse_cond`: collect branches until the
closing `endif`. -/
def parseCondLoop (nm : Option Str) (fuel : Nat) (start : Pos) (pieces : List Branch)
    (tokens : List Tok) (ctx : List Str) : Except TemplateErr (Node × List Tok) :=
  match fuel, tokens with
  | 0, _ => .error fuelErr
  | _ + 1, [] => .error ⟨(str ("Missing \x7b\x7bendif\x7d\x7d")), start⟩
  | f + 1, tok :: rest =>
    match tok with
    | Tok.dir d _ =>
      if d = (str ("endif")) then .ok (.condN start pieces, rest)
      else
        match parseOneCond nm f (tok :: rest) ctx with
        | .error e => .error e
        | .ok (piece, rest2) => parseCondLoop nm f start (pieces ++ [piece]) rest2 ctx
    | Tok.lit _ =>
      match parseOneCond nm f (tok :: rest) ctx with
      | .error e => .error e
      | .ok (piece, rest2) => parseCondLoop nm f start (pieces ++ [piece]) rest2 ctx
termination_by structural fuel

/-- `parse_one_cond` (tempita.py lines 688-712): one branch header and
its body. -/
def parseOneCond (nm : Option Str) (fuel : Nat) (tokens : List Tok) (ctx : List Str) :
    Except TemplateErr (Branch × List Tok) :=
  match fuel, tokens with
  | 0, _ => .error fuelErr
  | _ + 1, [] => .error ⟨(str ("no tokens")), (0, 0)⟩
  | _ + 1, Tok.lit _ :: _ => .error ⟨(str ("Unexpected token")), (0, 0)⟩
  | f + 1, Tok.dir first0 pos :: rest =>
    let first := if first0.getLastD ' ' = ':' then first0.dropLast else first0
    if (str ("if ")).isPrefixOf first then
      parseOneCondLoop nm f ((str ("if")), pos, some ((first.drop 3).dropWhile pyIsSpace)) [] rest ctx
    else if (str ("elif ")).isPrefixOf first then
      parseOneCondLoop nm f ((str ("elif")), pos, some ((first.drop 5).dropWhile pyIsSpace)) [] rest ctx
    else if first = (str ("else")) then
      parseOneCondLoop nm f ((str ("else")), pos, none) [] rest ctx
    else
      .error ⟨(str ("Unexpected token")), pos⟩
termination_by structural fuel

/-- The `while 1` loop of `parse_one_cond`: collect the branch body
until `endif`, `elif ` or `else`. -/
def parseOneCondLoop (nm : Option Str) (fuel : Nat) (hdr : Str × Pos × Option Str)
    (content : List Node) (tokens : List Tok) (ctx : List Str) :
    Except TemplateErr (Branch × List Tok) :=
  match fuel, tokens with
  | 0, _ => .error fuelErr
  | _ + 1, [] => .error ⟨(str ("No \x7b\x7bendif\x7d\x7d")), hdr.2.1⟩
  | f + 1, tok :: rest =>
    let isBoundary : Bool :=
      match tok with
      | Tok.dir d _ =>
        d = (str ("endif")) ∨ (str ("elif ")).isPrefixOf d ∨ d = (str ("else"))
      | Tok.lit _ => false
    if isBoundary then .ok ((hdr.1, hdr.2.1, hdr.2.2, content), tok :: rest)
    else
      match parseExpr nm f (tok :: rest) ctx with
      | .error e => .error e
      | .ok (n, rest2) => parseOneCondLoop nm f hdr (content ++ [n]) rest2 ctx
termination_by structural fuel

/-- `parse_for` (tempita.py lines 714-746): the loop header (variable
list and iterable expression) and body. -/
def parseFor (nm : Option Str) (fuel : Nat) (tokens : List Tok) (ctx0 : List Str) :
    Except TemplateErr (Node × List Tok) :=
  match fuel, tokens with
  | 0, _ => .error fuelErr
  | _ + 1, [] => .error ⟨(str ("no tokens")), (0, 0)⟩
  | _ + 1, Tok.lit _ :: _ => .error ⟨(str ("Unexpected token")), (0, 0)⟩
  | f + 1, Tok.dir first0 pos :: rest =>
    let ctx := (str ("for")) :: ctx0
    let first1 := if first0.getLastD ' ' = ':' then first0.dropLast else first0
    let first := pyStrip (first1.drop 3)
    match inSearch first with
    | none =>
      .error ⟨(str ("Bad for (no \x22in\x22) in ")) ++ pyRepr (.vstr first), pos⟩
    | some (ms, me) =>
      let varsStr := first.take ms
      if '(' ∈ varsStr then
        .error ⟨(str ("You cannot have () in the variable section of a for loop (")) ++
                pyRepr (.vstr varsStr) ++ [')'], pos⟩
      else
        let vars := ((pySplitChar ',' varsStr).map pyStrip).filter (fun v => ¬ v = [])
        parseForLoop nm f pos vars (first.drop me) [] rest ctx
termination_by structural fuel

/-- The `while 1` loop of `parse_for`: collect the body until
`endfor`. -/
def parseForLoop (nm : Option Str) (fuel : Nat) (pos : Pos) (vars : List Str) (iterE : Str)
    (content : List Node) (tokens : List Tok) (ctx : List Str) :
    Except TemplateErr (Node × List Tok) :=
  match fuel, tokens with
  | 0, _ => .error fuelErr
  | _ + 1, [] => .error ⟨(str ("No \x7b\x7bendfor\x7d\x7d")), pos⟩
  | f + 1, tok :: rest =>
    let isEnd : Bool :=
      match tok with
      | Tok.dir d _ => d = (str ("endfor"))
      | Tok.lit _ => false
    if isEnd then .ok (.forN pos vars iterE content, rest)
    else
      match parseExpr nm f (tok :: rest) ctx with
      | .error e => .error e
      | .ok (n, rest2) => parseForLoop nm f pos vars iterE (content ++ [n]) rest2 ctx
termination_by structural fuel

/-- `parse_default` (tempita.py lines 748-767). -/
def parseDefault (nm : Option Str) (fuel : Nat) (tokens : List Tok) (ctx : List Str) :
    Except TemplateErr (Node × List Tok) :=
  match fuel, tokens with
  | 0, _ => .error fuelErr
  | _ + 1, [] => .error ⟨(str ("no tokens")), (0, 0)⟩
  | _ + 1, Tok.lit _ :: _ => .error ⟨(str ("Unexpected token")), (0, 0)⟩
  | _ + 1, Tok.dir first pos :: rest =>
    let after := (splitWsOnce first).2
    match splitOnce '=' after with
    | none =>
      .error ⟨(str ("Expression must be \x7b\x7bdefault var=value\x7d\x7d; no = found in ")) ++
              pyRepr (.vstr after), pos⟩
    | some (l, r) =>
      let var := pyStrip l
      if ',' ∈ var then
        .error ⟨(str ("\x7b\x7bdefault x, y = ...\x7d\x7d is not supported")), pos⟩
      else if ¬ varReOk var then
        .error ⟨(str ("Not a valid variable name for \x7b\x7bdefault\x7d\x7d: ")) ++
                pyRepr (.vstr var), pos⟩
      else .ok (.defaultN pos var (pyStrip r), rest)

/-- `parse_inherit` (tempita.py lines 769-773). -/
def parseInherit (nm : Option Str) (fuel : Nat) (tokens : List Tok) (ctx : List Str) :
    Except TemplateErr (Node × List Tok) :=
  match fuel, tokens with
  | 0, _ => .error fuelErr
  | _ + 1, [] => .error ⟨(str ("no tokens")), (0, 0)⟩
  | _ + 1, Tok.lit _ :: _ => .error ⟨(str ("Unexpected token")), (0, 0)⟩
  | _ + 1, Tok.dir first pos :: rest =>
    .ok (.inheritN pos (splitWsOnce first).2, rest)
end

/-- The `while tokens` loop of `parse` (tempita.py lines 616-621). -/
def parseTokens (nm : Option Str) (fuel : Nat) (tokens : List Tok) :
    Except TemplateErr (List Node) :=
  match fuel, tokens with
  | 0, _ => .error fuelErr
  | _ + 1, [] => .ok []
  | f + 1, ts =>
    match parseExpr nm f ts [] with
    | .error e => .error e
    | .ok (n, rest) =>
      match parseTokens nm f rest with
      | .error e => .error e
      | .ok ns => .ok (n :: ns)

/-- `parse` (tempita.py lines 566-621): lex (with trimming) then the
token loop. -/
def parseTemplate (nm : Option Str) (fuel : Nat) (s : Str) : Except TemplateErr (List Node) :=
  match lexTokens s with
  | .error e => .error e
  | .ok ts => parseTokens nm fuel ts

example : parseTemplate none 20 (str ("\x7b\x7bx\x7d\x7d")) =
    .ok [Node.exprN (1, 3) (str ("x"))] := rfl
example : parseTemplate none 20 (str ("foo")) = .ok [Node.lit (str ("foo"))] := rfl
example : parseTemplate none 20 (str ("\x7b\x7bif x\x7d\x7dtest\x7b\x7bendif\x7d\x7d")) =
    .ok [Node.condN (1, 3) [((str ("if")), (1, 3), some (str ("x")), [Node.lit (str ("test"))])]] := rfl
example :
    parseTemplate none 20 (str ("series->\x7b\x7bfor x in y\x7d\x7dx=\x7b\x7bx\x7d\x7d\x7b\x7bendfor\x7d\x7d")) =
    .ok [Node.lit (str ("series->")),
         Node.forN (1, 11) [(str ("x"))] (str ("y"))
           [Node.lit (str ("x=")), Node.exprN (1, 27) (str ("x"))]] := rfl
example :
    parseTemplate none 20 (str ("\x7b\x7bfor x, y in z:\x7d\x7d\x7b\x7bcontinue\x7d\x7d\x7b\x7bendfor\x7d\x7d")) =
    .ok [Node.forN (1, 3) [(str ("x")), (str ("y"))] (str ("z")) [Node.contN (1, 21)]] := rfl
example : parseTemplate none 20 (str ("\x7b\x7bpy:x=1\x7d\x7d")) =
    .ok [Node.py (1, 3) (str ("x=1"))] := rfl
example : parseTemplate none 20 (str ("\x7b\x7bpy:\nx=1\n\x7d\x7d")) =
    .ok [Node.py (1, 3) (str ("x=1\n"))] := rfl
example :
    parseTemplate none 20
      (str ("\x7b\x7bif x\x7d\x7da\x7b\x7belif y\x7d\x7db\x7b\x7belse\x7d\x7dc\x7b\x7bendif\x7d\x7d")) =
    .ok [Node.condN (1, 3)
          [((str ("if")), (1, 3), some (str ("x")), [Node.lit (str ("a"))]),
           ((str ("elif")), (1, 12), some (str ("y")), [Node.lit (str ("b"))]),
           ((str ("else")), (1, 23), none, [Node.lit (str ("c"))])]] := rfl
example : parseTemplate none 20 (str ("\x7b\x7bcontinue\x7d\x7d")) =
    .error ⟨(str ("continue outside of for loop")), (1, 3)⟩ := rfl
example : parseTemplate none 20 (str ("\x7b\x7bif x\x7d\x7dfoo")) =
    .error ⟨(str ("No \x7b\x7bendif\x7d\x7d")), (1, 3)⟩ := rfl
example : parseTemplate none 20 (str ("\x7b\x7belse\x7d\x7d")) =
    .error ⟨(str ("else outside of an if block")), (1, 3)⟩ := rfl
example :
    parseTemplate none 20
      (str ("\x7b\x7bif x\x7d\x7d\x7b\x7bfor x in y\x7d\x7d\x7b\x7bendif\x7d\x7d\x7b\x7bendfor\x7d\x7d")) =
    .error ⟨(str ("Unexpected endif")), (1, 25)⟩ := rfl
example : parseTemplate none 20 (str ("\x7b\x7bif\x7d\x7d\x7b\x7bendif\x7d\x7d")) =
    .error ⟨(str ("if with no expression")), (1, 3)⟩ := rfl
example : parseTemplate none 20 (str ("\x7b\x7bfor x y\x7d\x7d\x7b\x7bendfor\x7d\x7d")) =
    .error ⟨(str ("Bad for (no \x22in\x22) in 'x y'")), (1, 3)⟩ := rfl
example : parseTemplate none 20 (str ("\x7b\x7bpy:x=1\ny=2\x7d\x7d")) =
    .error ⟨(str ("Multi-line py blocks must start with a newline")), (1, 3)⟩ := rfl

/-- The Expression/Statement Evaluator collaborator (Python's `eval` /
`exec` with the default namespace as globals, plus application of an
evaluated callable): external to the engine, modelled as a parameter.
`exec` returns the updated namespace; `app` applies a callable value
from a filter to the running value. -/
structure Ev where
  eval : Str → Ns → Except Str Value
  exec : Str → Ns → Except Str Ns
  app : Value → Value → Except Str Value

/-- The mutable interpreter state threaded through `_interpret_codes`:
the namespace `ns`, the output parts `out`, and the `defs` mapping. -/
structure St where
  ns : Ns
  out : List Str
  defs : Ns

/-- How interpretation of a node finished: normally, with one of the
two loop-control exceptions (`_TemplateContinue` / `_TemplateBreak`),
or with an error carrying its message. -/
inductive Ctl where
  | normal
  | contS
  | brkS
  | err (msg : Str)

/-- `Template._eval` (tempita.py lines 262-279): an evaluator failure
has its message rewritten by `_add_line_info` before re-raising. -/
def wrapEval (ev : Ev) (tname : Option Str) (code : Str) (ns : Ns) (pos : Pos) :
    Except Str Value :=
  match ev.eval code ns with
  | .ok v => .ok v
  | .error e => .error (addLineInfo e pos tname)

/-- `Template._exec` (tempita.py lines 281-292): statement execution
with the same message rewriting on failure. -/
def wrapExec (ev : Ev) (tname : Option Str) (code : Str) (ns : Ns) (pos : Pos) :
    Except Str Ns :=
  match ev.exec code ns with
  | .ok ns2 => .ok ns2
  | .error e => .error (addLineInfo e pos tname)

/-- The filter loop of the `expr` case of `_interpret_code`
(tempita.py lines 206-213): each pipe part is stripped; a part quoted
on both ends replaces the running value only when the running value's
stripped string form is empty; otherwise the part is evaluated and
applied to the running value.  An empty part reproduces the
`IndexError` of `part[0]`. -/
def runFilters (ev : Ev) (tname : Option Str) (pos : Pos) (ns : Ns) :
    List Str → Value → Except Str Value
  | [], base => .ok base
  | p :: rest, base =>
    let part := pyStrip p
    match part with
    | [] => .error (str ("string index out of range"))
    | c :: cs =>
      if (c = '\'' ∧ (c :: cs).getLastD c = '\'') ∨ (c = '"' ∧ (c :: cs).getLastD c = '"') then
        let base2 := if pyStrip (pyToString base) = [] then
                       Value.vstr ((c :: cs).drop 1).dropLast
                     else base
        runFilters ev tname pos ns rest base2
      else
        match wrapEval ev tname part ns pos with
        | .error e => .error e
        | .ok fv =>
          match ev.app fv base with
          | .error e => .error e
          | .ok b2 => runFilters ev tname pos ns rest b2

/-- The filter behaviour in the words of the specification: a
quoted-literal filter replaces the running value exactly when the
running value's trimmed string form is empty, and any other filter is
evaluated to a callable and applied to the running value. -/
def specFilterChain (ev : Ev) (tname : Option Str) (pos : Pos) (ns : Ns) :
    List Str → Value → Except Str Value
  | [], base => .ok base
  | p :: rest, base =>
    match pyStrip p with
    | [] =>
      match wrapEval ev tname [] ns pos with
      | .error e => .error e
      | .ok fv =>
        match ev.app fv base with
        | .error e => .error e
        | .ok b2 => specFilterChain ev tname pos ns rest b2
    | c :: cs =>
      if (c = '\'' ∧ (c :: cs).getLastD c = '\'') ∨ (c = '"' ∧ (c :: cs).getLastD c = '"') then
        let base2 := if pyStrip (pyToString base) = [] then
                       Value.vstr ((c :: cs).drop 1).dropLast
                     else base
        specFilterChain ev tname pos ns rest base2
      else
        match wrapEval ev tname (c :: cs) ns pos with
        | .error e => .error e
        | .ok fv =>
          match ev.app fv base with
          | .error e => .error e
          | .ok b2 => specFilterChain ev tname pos ns rest b2

/-- The `ValueError` message of `_interpret_for` for an arity
mismatch. -/
def unpackMsg (want got : Nat) : Str :=
  (str ("Need ")) ++ natStr want ++ (str (" items to unpack (got ")) ++
  natStr got ++ (str (" items)"))

/-- Sequential binding of `zip(vars, item)` into the namespace. -/
def bindZip : List Str → List Value → Ns → Ns
  | v :: vs, x :: xs, ns => bindZip vs xs (dictSet ns v x)
  | _, _, ns => ns

/-- The loop-variable binding step of `_interpret_for` (tempita.py
lines 232-240): one name binds the item directly; several names
require `len(item)` to equal the name count, else the unpack
`ValueError` is raised. -/
def bindVars (vars : List Str) (item : Value) (ns : Ns) : Except Str Ns :=
  match vars with
  | [v] => .ok (dictSet ns v item)
  | _ =>
    match pyLen item with
    | none => .error (str ("object has no len()"))
    | some l =>
      if vars.length ≠ l then .error (unpackMsg vars.length l)
      else
        match pyIterate item with
        | none => .error (str ("object is not iterable"))
        | some elems => .ok (bindZip vars elems ns)

mutual
/-- `Template._interpret_code` (tempita.py lines 187-227), fuelled. -/
def interpCode (ev : Ev) (tname : Option Str) (fuel : Nat) (n : Node) (st : St) : St × Ctl :=
  match fuel, n with
  | 0, _ => (st, .err (str ("recursion limit")))
  | _ + 1, Node.lit s => ({st with out := st.out ++ [s]}, .normal)
  | _ + 1, Node.py pos code =>
    match wrapExec ev tname code st.ns pos with
    | .ok ns2 => ({st with ns := ns2}, .normal)
    | .error e => (st, .err e)
  | _ + 1, Node.contN _ => (st, .contS)
  | _ + 1, Node.brkN _ => (st, .brkS)
  | f + 1, Node.forN pos vars iterE body =>
    match wrapEval ev tname iterE st.ns pos with
    | .error e => (st, .err e)
    | .ok v =>
      match pyIterate v with
      | none => (st, .err (str ("object is not iterable")))
      | some items => interpFor ev tname f vars items body st
  | f + 1, Node.condN _ branches => interpIf ev tname f branches st
  | _ + 1, Node.exprN pos code =>
    let parts := pySplitChar '|' code
    match wrapEval ev tname (parts.headD []) st.ns pos with
    | .error e => (st, .err e)
    | .ok base =>
      match runFilters ev tname pos st.ns parts.tail base with
      | .error e => (st, .err e)
      | .ok v => ({st with out := st.out ++ [pyToString v]}, .normal)
  | _ + 1, Node.defaultN pos var code =>
    if dictHas st.ns var then (st, .normal)
    else
      match wrapEval ev tname code st.ns pos with
      | .ok v => ({st with ns := dictSet st.ns var v}, .normal)
      | .error e => (st, .err e)
  | _ + 1, Node.inheritN pos code =>
    match wrapEval ev tname code st.ns pos with
    | .ok v => ({st with defs := dictSet st.defs (str ("__inherit__")) v}, .normal)
    | .error e => (st, .err e)
  | _ + 1, Node.commentN _ _ => (st, .normal)
termination_by structural fuel

/-- `Template._interpret_codes` (tempita.py lines 179-185): run the
items in order; a raised signal or error aborts the sequence. -/
def interpCodes (ev : Ev) (tname : Option Str) (fuel : Nat) (ns : List Node) (st : St) :
    St × Ctl :=
  match fuel, ns with
  | 0, _ => (st, .err (str ("recursion limit")))
  | _ + 1, [] => (st, .normal)
  | f + 1, n :: rest =>
    match interpCode ev tname f n st with
    | (st2, .normal) => interpCodes ev tname f rest st2
    | r => r
termination_by structural fuel

/-- The item loop of `Template._interpret_for` (tempita.py lines
229-246): bind the loop variables, run the body, and consume a
`continue` or `break` signal raised by it. -/
def interpFor (ev : Ev) (tname : Option Str) (fuel : Nat) (vars : List Str)
    (items : List Value) (content : List Node) (st : St) : St × Ctl :=
  match fuel, items with
  | 0, _ => (st, .err (str ("recursion limit")))
  | _ + 1, [] => (st, .normal)
  | f + 1, item :: rest =>
    match bindVars vars item st.ns with
    | .error e => (st, .err e)
    | .ok ns2 =>
      match interpCodes ev tname f content {st with ns := ns2} with
      | (st2, .normal) => interpFor ev tname f vars rest content st2
      | (st2, .contS) => interpFor ev tname f vars rest content st2
      | (st2, .brkS) => (st2, .normal)
      | (st2, .err e) => (st2, .err e)
termination_by structural fuel

/-- `Template._interpret_if` (tempita.py lines 248-260): the first
branch whose condition is truthy (an `else` branch is definitionally
truthy) runs, then the conditional stops. -/
def interpIf (ev : Ev) (tname : Option Str) (fuel : Nat) (branches : List Branch) (st : St) :
    St × Ctl :=
  match fuel, branches with
  | 0, _ => (st, .err (str ("recursion limit")))
  | _ + 1, [] => (st, .normal)
  | f + 1, (kind, pos, test, body) :: rest =>
    if kind = (str ("else")) then interpCodes ev tname f body st
    else
      match wrapEval ev tname (test.getD []) st.ns pos with
      | .error e => (st, .err e)
      | .ok v =>
        if pyTruthy v then interpCodes ev tname f body st
        else interpIf ev tname f rest st
termination_by structural fuel
end

/-- `''.join(parts)`. -/
def joinOut (out : List Str) : Str := out.foldl (fun a b => a ++ b) []

/-- The namespace set up by `Template.substitute` (tempita.py lines
142-145): the caller's mapping itself is used as the namespace (`ns =
kw`), the reserved key is stored into it, and when the
constructor-supplied namespace is non-empty it is merged over it. -/
def substituteNs (kw : Ns) (tname : Option Str) (base : Ns) : Ns :=
  let nameV : Value := match tname with | some n => .vstr n | none => .vnone
  let ns := dictSet kw (str ("__template_name__")) nameV
  if base.isEmpty then ns else dictUpdate ns base

/-- The observable outcome of one `substitute` call: the joined
output, the caller's mapping as it stands after the call (it is the
very object used as the rendering namespace), the `defs` mapping after
`__inherit__` is popped, the popped inheritance target, and how the
interpretation finished. -/
structure SubResult where
  output : Str
  callerNs : Ns
  defs : Ns
  inheritTarget : Option Value
  ctl : Ctl

/-- `Template.substitute` together with `Template._interpret`
(tempita.py lines 129-162), for a template whose parse result is
`parsed`; the inheritance re-entry (`_interpret_inherit`) resolves
through the external `get_template` collaborator and is modelled
separately (`buildSelfAttrs`). -/
def substituteRun (ev : Ev) (tname : Option Str) (base : Ns) (parsed : List Node)
    (kw : Ns) (fuel : Nat) : SubResult :=
  let ns0 := substituteNs kw tname base
  let r := interpCodes ev tname fuel parsed ⟨ns0, [], []⟩
  ⟨joinOut r.1.out, r.1.ns, dictRemove r.1.defs (str ("__inherit__")),
   dictGet r.1.defs (str ("__inherit__")), r.2⟩



/-- Lookup after storing the same key. -/
theorem dictGet_set_self (d : Ns) (k : Str) (v : Value) : dictGet (dictSet d k v) k = some v := by
  induction d with
  | nil => simp [dictSet, dictGet]
  | cons p rest ih =>
    obtain ⟨k0, v0⟩ := p
    by_cases h : k0 = k
    · simp [dictSet, h, dictGet]
    · simp [dictSet, h, dictGet, ih]

/-- Lookup after storing a different key. -/
theorem dictGet_set_other (d : Ns) (k k2 : Str) (v : Value) (h : ¬ k = k2) :
    dictGet (dictSet d k v) k2 = dictGet d k2 := by
  induction d with
  | nil => simp [dictSet, dictGet, h]
  | cons p rest ih =>
    obtain ⟨k0, v0⟩ := p
    by_cases hp : k0 = k
    · have h2 : ¬ k0 = k2 := fun hh => h (hp.symm.trans hh)
      simp [dictSet, hp, dictGet, h2, h]
    · by_cases hpk : k0 = k2
      · have h3 : ¬ k2 = k := fun hh => h hh.symm
        simp [dictSet, hp, dictGet, hpk, h3]
      · simp [dictSet, hp, dictGet, hpk, ih]

/-- A store preserves presence of any key. -/
theorem dictGet_set_isSome (d : Ns) (k k2 : Str) (v : Value)
    (h : (dictGet d k2).isSome = true) : (dictGet (dictSet d k v) k2).isSome = true := by
  by_cases hk : k = k2
  · subst hk; simp [dictGet_set_self]
  · rwa [dictGet_set_other d k k2 v hk]

/-- Unfolding one step of `update`. -/
theorem dictUpdate_cons (d : Ns) (p : Str × Value) (rest : Ns) :
    dictUpdate d (p :: rest) = dictUpdate (dictSet d p.1 p.2) rest := rfl

/-- A key absent from `other` is untouched by `update`. -/
theorem dictGet_update_notin (other : Ns) (d : Ns) (k : Str)
    (h : dictGet other k = none) : dictGet (dictUpdate d other) k = dictGet d k := by
  induction other generalizing d with
  | nil => rfl
  | cons p rest ih =>
    obtain ⟨k0, v0⟩ := p
    have hne : ¬ k0 = k := by
      intro hk; rw [dictGet, if_pos hk] at h; exact Option.noConfusion h
    have hrest : dictGet rest k = none := by rwa [dictGet, if_neg hne] at h
    rw [dictUpdate_cons, ih _ hrest, dictGet_set_other _ _ _ _ hne]

/-- A key that is not among the keys of `d` looks up to `none`. -/
theorem dictGet_none_of_notMem (d : Ns) (k : Str) (h : k ∉ d.map Prod.fst) :
    dictGet d k = none := by
  induction d with
  | nil => rfl
  | cons p rest ih =>
    obtain ⟨k0, v0⟩ := p
    rw [List.map_cons] at h
    have h1 : ¬ k0 = k := by
      intro hh; subst hh; exact h (List.mem_cons_self _ _)
    have h2 : k ∉ rest.map Prod.fst := fun hm => h (List.mem_cons_of_mem _ hm)
    rw [dictGet, if_neg h1, ih h2]

/-- With duplicate-free keys (a real Python dictionary), `update`
gives every key of `other` its value from `other`. -/
theorem dictGet_update_mem (other : Ns) (d : Ns) (k : Str) (v : Value)
    (hnd : (other.map Prod.fst).Nodup) (h : dictGet other k = some v) :
    dictGet (dictUpdate d other) k = some v := by
  induction other generalizing d with
  | nil => exact Option.noConfusion h
  | cons p rest ih =>
    obtain ⟨k0, v0⟩ := p
    rw [List.map_cons, List.nodup_cons] at hnd
    by_cases hp : k0 = k
    · have hv : v0 = v := by
        rw [dictGet, if_pos hp] at h; exact Option.some.inj h
      have hnotin : k ∉ rest.map Prod.fst := by
        subst hp; exact hnd.1
      have hnone : dictGet rest k = none := dictGet_none_of_notMem rest k hnotin
      rw [dictUpdate_cons, dictGet_update_notin rest _ k hnone]
      subst hp hv
      exact dictGet_set_self d k0 v0
    · have hrest : dictGet rest k = some v := by rwa [dictGet, if_neg hp] at h
      rw [dictUpdate_cons, ih _ hnd.2 hrest]

/-- `update` preserves presence of a key already in `d`. -/
theorem dictGet_update_isSome (other : Ns) (d : Ns) (k : Str)
    (h : (dictGet d k).isSome = true) : (dictGet (dictUpdate d other) k).isSome = true := by
  induction other generalizing d with
  | nil => exact h
  | cons p rest ih =>
    rw [dictUpdate_cons]
    exact ih _ (dictGet_set_isSome _ _ _ _ h)

/-- Lookup after removing a key. -/
theorem dictGet_remove (d : Ns) (k0 k : Str) :
    dictGet (dictRemove d k0) k = if k = k0 then none else dictGet d k := by
  induction d with
  | nil => simp [dictRemove, dictGet]
  | cons p rest ih =>
    obtain ⟨k1, v1⟩ := p
    by_cases hp : k1 = k0
    · subst hp
      by_cases hk : k = k1
      · subst hk
        simp [dictRemove, ih]
      · have ha : ¬ k1 = k := fun hh => hk hh.symm
        simp [dictRemove, dictGet, hk, ha, ih]
    · by_cases hpk : k1 = k
      · have hk : ¬ k = k0 := fun hh => hp (hpk.trans hh)
        simp [dictRemove, hp, dictGet, hpk, hk]
      · simp [dictRemove, hp, dictGet, hpk, ih]

/-- A trivial evaluator used for concrete instances: expression
evaluation always fails, statement execution is a no-op, application
returns its argument. -/
def evNull : Ev :=
  ⟨fun _ _ => .error (str ("name error")), fun _ ns => .ok ns, fun _ v => .ok v⟩

/-- The empty interpreter state. -/
def stEmpty : St := ⟨[], [], []⟩

/-- Claim C5: the claim that every error of the system renders as
`<message> at line <L> column <C>[ in <name>]` is false: a wrapped
evaluator failure is annotated by `_add_line_info`, which renders the
name segment as ` in file <name>` (tempita.py line 302), while
`TemplateError.__str__` renders ` in <name>` (line 56).  At the same
message, position and template name the two diagnostics differ. -/
theorem claimC5_counterexample :
    addLineInfo (str ("boom")) (1, 3) (some (str ("tpl"))) =
      (str ("boom at line 1 column 3 in file tpl")) ∧
    templateErrorStr (str ("boom")) (some (1, 3)) (some (str ("tpl"))) =
      (str ("boom at line 1 column 3 in tpl")) ∧
    ¬ (str ("boom at line 1 column 3 in file tpl")) = (str ("boom at line 1 column 3 in tpl")) :=
  ⟨rfl, rfl, by decide⟩

/-- Claim C5, amended: a `TemplateError` renders as
`<message>[ at line <L> column <C>][ in <name>]`, the position segment
present only when a position is attached; a wrapped evaluator failure
renders as `<message> at line <L> column <C>[ in file <name>]`; for a
named template the two formats always differ. -/
theorem claimC5_theorem (msg : Str) (l c : Nat) (n : Str) (hn : ¬ n = []) :
    templateErrorStr msg (some (l, c)) (some n) =
      msg ++ (str (" at line ")) ++ natStr l ++ (str (" column ")) ++ natStr c ++
        (str (" in ")) ++ n ∧
    templateErrorStr msg none (some n) = msg ++ (str (" in ")) ++ n ∧
    addLineInfo msg (l, c) (some n) =
      msg ++ (str (" at line ")) ++ natStr l ++ (str (" column ")) ++ natStr c ++
        (str (" in file ")) ++ n ∧
    ¬ templateErrorStr msg (some (l, c)) (some n) = addLineInfo msg (l, c) (some n) := by
  refine ⟨?_, ?_, ?_, ?_⟩
  · simp only [templateErrorStr]
    rw [if_neg hn]
  · simp only [templateErrorStr]
    rw [if_neg hn]
  · simp only [addLineInfo]
    rw [if_neg hn]
  · intro heq
    simp only [templateErrorStr, addLineInfo] at heq
    rw [if_neg hn, if_neg hn] at heq
    have hlen := congrArg List.length heq
    have e1 : (str (" in ")).length = 4 := rfl
    have e2 : (str (" in file ")).length = 9 := rfl
    simp only [List.length_append, e1, e2] at hlen
    omega

/-- Witness for C5: the two formats differ at a concrete input. -/
theorem claimC5_witness :
    ¬ templateErrorStr (str ("m")) (some (2, 5)) (some (str ("t"))) =
      addLineInfo (str ("m")) (2, 5) (some (str ("t"))) :=
  (claimC5_theorem (str ("m")) 2 5 (str ("t")) (by decide)).2.2.2

/-- Claim C1: the claim that `substitute` never shares or mutates the
caller-supplied mapping is false.  `substitute` does `ns = kw` (line
142) and stores `__template_name__` into it (line 143): rendering the
literal template `hello` with an empty caller mapping leaves the
caller's mapping holding the new key. -/
theorem claimC1_counterexample :
    (substituteRun evNull none [] [Node.lit (str ("hello"))] [] 5).output = (str ("hello")) ∧
    (substituteRun evNull none [] [Node.lit (str ("hello"))] [] 5).callerNs =
      [((str ("__template_name__")), Value.vnone)] ∧
    ¬ ([((str ("__template_name__")), Value.vnone)] : Ns) = ([] : Ns) := by
  refine ⟨rfl, rfl, ?_⟩
  intro h
  exact List.noConfusion h

/-- Claim C1, amended: `substitute` uses the caller-supplied mapping
itself as the rendering namespace; it stores `__template_name__` into
it and merges the constructor namespace over it, so after a call the
caller's mapping always carries `__template_name__` and (when that key
was absent before) is no longer equal to what the caller passed in.
Only `_interpret_inherit` copies a namespace. -/
theorem claimC1_theorem (ev : Ev) (kw : Ns) (tname : Option Str) (base : Ns) (fuel : Nat)
    (h : dictGet kw (str ("__template_name__")) = none) :
    (substituteRun ev tname base [] kw (fuel + 1)).callerNs = substituteNs kw tname base ∧
    (dictGet (substituteNs kw tname base) (str ("__template_name__"))).isSome = true ∧
    ¬ substituteNs kw tname base = kw := by
  have hsome : (dictGet (substituteNs kw tname base) (str ("__template_name__"))).isSome = true := by
    simp only [substituteNs]
    by_cases hb : base.isEmpty
    · rw [if_pos hb]
      simp [dictGet_set_self]
    · rw [if_neg hb]
      exact dictGet_update_isSome _ _ _ (by simp [dictGet_set_self])
  refine ⟨rfl, hsome, ?_⟩
  intro heq
  rw [heq] at hsome
  rw [h] at hsome
  exact Bool.noConfusion hsome

/-- Witness for C1: a concrete call on an empty caller mapping. -/
theorem claimC1_witness : ¬ substituteNs [] none [] = ([] : Ns) :=
  (claimC1_theorem evNull [] none [] 0 rfl).2.2

/-- Claim C10: the first half holds (the constructor namespace is
merged after the caller bindings and shadows them), but the claim that
`__template_name__` is always bound to the template's name is false:
the key is stored before the merge (line 143 before line 145), so a
constructor namespace containing `__template_name__` overrides it. -/
theorem claimC10_counterexample :
    dictGet (substituteNs [] (some (str ("t")))
        [((str ("__template_name__")), Value.vstr (str ("x")))])
      (str ("__template_name__")) = some (Value.vstr (str ("x"))) ∧
    ¬ some (Value.vstr (str ("x"))) = some (Value.vstr (str ("t"))) := by
  refine ⟨rfl, ?_⟩
  intro h
  exact absurd (Value.vstr.inj (Option.some.inj h)) (by decide)

/-- Claim C10, amended: in `substitute` the constructor namespace is
merged into the namespace after the caller's bindings, so every key of
the constructor namespace renders with the constructor namespace's
value; `__template_name__` is stored before that merge and therefore
holds the template's name whenever the constructor namespace does not
itself bind `__template_name__`. -/
theorem claimC10_theorem (kw : Ns) (tname : Option Str) (base : Ns)
    (hnd : (base.map Prod.fst).Nodup) :
    (∀ k v, dictGet base k = some v → dictGet (substituteNs kw tname base) k = some v) ∧
    (dictGet base (str ("__template_name__")) = none →
       dictGet (substituteNs kw tname base) (str ("__template_name__")) =
         some (match tname with | some n => Value.vstr n | none => Value.vnone)) := by
  constructor
  · intro k v hk
    have hbne : ¬ base.isEmpty = true := by
      cases base with
      | nil => exact absurd hk (by simp [dictGet])
      | cons p r => simp
    simp only [substituteNs]
    rw [if_neg hbne]
    exact dictGet_update_mem base _ k v hnd hk
  · intro hnone
    simp only [substituteNs]
    by_cases hb : base.isEmpty = true
    · rw [if_pos hb]
      exact dictGet_set_self _ _ _
    · rw [if_neg hb, dictGet_update_notin _ _ _ hnone]
      exact dictGet_set_self _ _ _

/-- Witness for C10: a constructor-namespace value shadows the
caller's value for the shared key `x`. -/
theorem claimC10_witness :
    dictGet (substituteNs [((str ("x")), Value.vint 1)] (some (str ("t")))
      [((str ("x")), Value.vint 2)]) (str ("x")) = some (Value.vint 2) :=
  (claimC10_theorem [((str ("x")), Value.vint 1)] (some (str ("t")))
    [((str ("x")), Value.vint 2)] (by simp)).1 (str ("x")) (Value.vint 2) rfl

/-- The item loop of `_interpret_for` never lets a loop-control signal
escape: its control result is never `continue` or `break`. -/
theorem interpFor_no_signal (ev : Ev) (tname : Option Str) :
    ∀ fuel vars items content st,
      ¬ (interpFor ev tname fuel vars items content st).2 = Ctl.contS ∧
      ¬ (interpFor ev tname fuel vars items content st).2 = Ctl.brkS := by
  intro fuel
  induction fuel with
  | zero => intro vars items content st; simp [interpFor]
  | succ f ih =>
    intro vars items content st
    cases items with
    | nil => simp [interpFor]
    | cons item rest =>
      cases hb : bindVars vars item st.ns with
      | error e => simp [interpFor, hb]
      | ok ns2 =>
        rcases hc : interpCodes ev tname f content {st with ns := ns2} with ⟨st2, c⟩
        cases c with
        | normal =>
          simp only [interpFor, hb, hc]
          exact ih vars rest content st2
        | contS =>
          simp only [interpFor, hb, hc]
          exact ih vars rest content st2
        | brkS => simp [interpFor, hb, hc]
        | err e => simp [interpFor, hb, hc]

/-- Claim C4 (confirmed): interpreting a `For` node never yields a
loop-control signal — a `break` or `continue` raised in the body is
consumed by the nearest enclosing `For` (tempita.py lines 241-246) —
and the loop handler terminates the loop on `break`, keeping the state
reached so far, and moves to the next item on `continue`. -/
theorem claimC4_theorem (ev : Ev) (tname : Option Str) :
    (∀ fuel pos vars iterE body st,
       ¬ (interpCode ev tname fuel (Node.forN pos vars iterE body) st).2 = Ctl.contS ∧
       ¬ (interpCode ev tname fuel (Node.forN pos vars iterE body) st).2 = Ctl.brkS) ∧
    (∀ f vars item rest body st ns2 st2,
       bindVars vars item st.ns = .ok ns2 →
       interpCodes ev tname f body {st with ns := ns2} = (st2, Ctl.brkS) →
       interpFor ev tname (f + 1) vars (item :: rest) body st = (st2, Ctl.normal)) ∧
    (∀ f vars item rest body st ns2 st2,
       bindVars vars item st.ns = .ok ns2 →
       interpCodes ev tname f body {st with ns := ns2} = (st2, Ctl.contS) →
       interpFor ev tname (f + 1) vars (item :: rest) body st =
         interpFor ev tname f vars rest body st2) := by
  refine ⟨?_, ?_, ?_⟩
  · intro fuel pos vars iterE body st
    cases fuel with
    | zero => simp [interpCode]
    | succ f =>
      cases hv : wrapEval ev tname iterE st.ns pos with
      | error e => simp [interpCode, hv]
      | ok v =>
        cases hi : pyIterate v with
        | none => simp [interpCode, hv, hi]
        | some items =>
          simp only [interpCode, hv, hi]
          exact interpFor_no_signal ev tname f vars items body st
  · intro f vars item rest body st ns2 st2 hbind hbody
    simp [interpFor, hbind, hbody]
  · intro f vars item rest body st ns2 st2 hbind hbody
    simp [interpFor, hbind, hbody]

/-- Witness for C4: a body consisting of a bare `break` ends the loop
at once with a `normal` result. -/
theorem claimC4_witness :
    interpFor evNull none 3 [(str ("x"))] [Value.vint 1] [Node.brkN (1, 1)] stEmpty =
      (⟨[((str ("x")), Value.vint 1)], [], []⟩, Ctl.normal) :=
  (claimC4_theorem evNull none).2.1 2 [(str ("x"))] (Value.vint 1) [] [Node.brkN (1, 1)]
    stEmpty [((str ("x")), Value.vint 1)] ⟨[((str ("x")), Value.vint 1)], [], []⟩ rfl rfl

/-- Claim C7 (confirmed): with two or more loop variables, an item
whose length differs from the variable count makes `_interpret_for`
raise the unpack error reporting expected and actual counts; an item
of matching length binds each variable to the corresponding element;
and in a loop the error surfaces exactly when the offending item is
reached (for the spec's example, on the second item, after the first
has been processed). -/
theorem claimC7_theorem (vars : List Str) (h2 : 2 ≤ vars.length) :
    (∀ item ns l, pyLen item = some l → ¬ l = vars.length →
       bindVars vars item ns = .error (unpackMsg vars.length l)) ∧
    (∀ item ns elems, pyLen item = some elems.length → pyIterate item = some elems →
       elems.length = vars.length →
       bindVars vars item ns = .ok (bindZip vars elems ns)) ∧
    (∀ ev tname f item1 bad rest body st ns2 st2 e,
       bindVars vars item1 st.ns = .ok ns2 →
       interpCodes ev tname (f + 1) body {st with ns := ns2} = (st2, Ctl.normal) →
       bindVars vars bad st2.ns = .error e →
       interpFor ev tname (f + 2) vars (item1 :: bad :: rest) body st = (st2, Ctl.err e)) := by
  rcases vars with _ | ⟨a, _ | ⟨b, t⟩⟩
  · simp at h2
  · simp at h2
  · refine ⟨?_, ?_, ?_⟩
    · intro item ns l hl hne
      have hcond : (a :: b :: t).length ≠ l := fun hh => hne hh.symm
      simp only [bindVars, hl]
      rw [if_pos hcond]
    · intro item ns elems hlen hiter heq
      simp [bindVars, hlen, hiter, heq]
    · intro ev tname f item1 bad rest body st ns2 st2 e hbind hbody hbad
      simp [interpFor, hbind, hbody, hbad]

/-- Witness for C7: the spec's example — variables `a, b` over
`[(1, 2), (3,)]` — processes the first pair and fails on the second
item with the count-reporting message. -/
theorem claimC7_witness :
    interpFor evNull none 2 [(str ("a")), (str ("b"))]
      [Value.vlist [Value.vint 1, Value.vint 2], Value.vlist [Value.vint 3]] [] stEmpty =
      (⟨[((str ("a")), Value.vint 1), ((str ("b")), Value.vint 2)], [], []⟩,
        Ctl.err (str ("Need 2 items to unpack (got 1 items)"))) :=
  (claimC7_theorem [(str ("a")), (str ("b"))] (by decide)).2.2 evNull none 0
    (Value.vlist [Value.vint 1, Value.vint 2]) (Value.vlist [Value.vint 3]) [] [] stEmpty
    [((str ("a")), Value.vint 1), ((str ("b")), Value.vint 2)]
    ⟨[((str ("a")), Value.vint 1), ((str ("b")), Value.vint 2)], [], []⟩
    (str ("Need 2 items to unpack (got 1 items)")) rfl rfl rfl

/-- Claim C8 (confirmed): a `continue` or `break` directive parses to
an error positioned at the directive's own `(line, column)` exactly
when no enclosing `for` context marker is on the context stack, parses
to the corresponding node otherwise, and a `continue` nested in an
`if` inside a `for` parses successfully (the `if` context push
preserves the `for` marker). -/
theorem claimC8_theorem (nm : Option Str) (f : Nat) (d : Str) (pos : Pos) (rest : List Tok)
    (ctx : List Str) (hd : d = (str ("continue")) ∨ d = (str ("break"))) :
    (¬ ctx.contains (str ("for")) = true →
       parseExpr nm (f + 1) (Tok.dir d pos :: rest) ctx =
         .error ⟨(str ("continue outside of for loop")), pos⟩) ∧
    (ctx.contains (str ("for")) = true →
       parseExpr nm (f + 1) (Tok.dir d pos :: rest) ctx =
         .ok ((if d = (str ("continue")) then Node.contN pos else Node.brkN pos), rest)) ∧
    parseTemplate none 30
      (str ("\x7b\x7bfor x in y\x7d\x7d\x7b\x7bif z\x7d\x7d\x7b\x7bcontinue\x7d\x7d\x7b\x7bendif\x7d\x7d\x7b\x7bendfor\x7d\x7d")) =
      .ok [Node.forN (1, 3) [(str ("x"))] (str ("y"))
            [Node.condN (1, 17) [((str ("if")), (1, 17), some (str ("z")), [Node.contN (1, 25)])]]] := by
  rcases hd with rfl | rfl
  · have e1 : parseExpr nm (f + 1) (Tok.dir (str ("continue")) pos :: rest) ctx =
        if ¬ ctx.contains (str ("for")) = true then
          Except.error ⟨(str ("continue outside of for loop")), pos⟩
        else Except.ok (Node.contN pos, rest) := rfl
    refine ⟨?_, ?_, rfl⟩
    · intro hc
      rw [e1, if_pos hc]
    · intro hc
      rw [e1, if_neg (fun hn => hn hc)]
      rfl
  · have e1 : parseExpr nm (f + 1) (Tok.dir (str ("break")) pos :: rest) ctx =
        if ¬ ctx.contains (str ("for")) = true then
          Except.error ⟨(str ("continue outside of for loop")), pos⟩
        else Except.ok (Node.brkN pos, rest) := rfl
    refine ⟨?_, ?_, rfl⟩
    · intro hc
      rw [e1, if_pos hc]
    · intro hc
      rw [e1, if_neg (fun hn => hn hc)]
      rfl

/-- Witness for C8: a bare `continue` at top level (empty context)
fails at its own position. -/
theorem claimC8_witness :
    parseExpr none 4 [Tok.dir (str ("continue")) (2, 5)] [] =
      .error ⟨(str ("continue outside of for loop")), (2, 5)⟩ :=
  (claimC8_theorem none 3 (str ("continue")) (2, 5) [] [] (Or.inl rfl)).1 (by decide)

/-- An evaluator for the C6 instances: every expression evaluates to
its own text as a string value, application returns the base value. -/
def evC6 : Ev := ⟨fun code _ => .ok (Value.vstr code), fun _ ns => .ok ns, fun _ v => .ok v⟩

/-- Claim C6: the claim is false for an empty filter: on the directive
text `x|` the filter list produced by splitting on the pipe contains
the empty string, and the interpreter raises `IndexError` at `part[0]`
(tempita.py line 208) instead of evaluating the filter to a callable
and applying it as the claim prescribes for non-quoted filters (under
`evC6` that application would succeed). -/
theorem claimC6_counterexample :
    interpCode evC6 none 5 (Node.exprN (1, 3) (str ("x|"))) stEmpty =
      (stEmpty, Ctl.err (str ("string index out of range"))) ∧
    specFilterChain evC6 none (1, 3) [] [[]] (Value.vstr (str ("x"))) =
      .ok (Value.vstr (str ("x"))) ∧
    ∀ st2, ¬ (stEmpty, Ctl.err (str ("string index out of range"))) = (st2, Ctl.normal) := by
  refine ⟨rfl, rfl, ?_⟩
  intro st2 h
  exact Ctl.noConfusion (congrArg Prod.snd h)

/-- Claim C6, amended: for every expression directive whose filters
are non-empty after trimming, the filters are applied in order exactly
as the claim states — a quoted-literal filter substitutes its contents
only when the running value's trimmed string form is empty, any other
filter is evaluated and applied to the running value — and the string
form of the final value is appended to the output. -/
theorem claimC6_theorem (ev : Ev) (tname : Option Str) :
    (∀ pos ns parts base, (∀ p ∈ parts, ¬ pyStrip p = []) →
       runFilters ev tname pos ns parts base = specFilterChain ev tname pos ns parts base) ∧
    (∀ f pos code st base v,
       wrapEval ev tname ((pySplitChar '|' code).headD []) st.ns pos = .ok base →
       runFilters ev tname pos st.ns (pySplitChar '|' code).tail base = .ok v →
       interpCode ev tname (f + 1) (Node.exprN pos code) st =
         ({st with out := st.out ++ [pyToString v]}, Ctl.normal)) := by
  constructor
  · intro pos ns parts
    induction parts with
    | nil => intro base h; rfl
    | cons p rest ih =>
      intro base h
      have hp : ¬ pyStrip p = [] := h p (List.mem_cons_self _ _)
      have hr : ∀ q ∈ rest, ¬ pyStrip q = [] :=
        fun q hq => h q (List.mem_cons_of_mem _ hq)
      cases hps : pyStrip p with
      | nil => exact absurd hps hp
      | cons c cs =>
        simp only [runFilters, specFilterChain, hps]
        by_cases hq : (c = '\'' ∧ (c :: cs).getLastD c = '\'') ∨
            (c = '"' ∧ (c :: cs).getLastD c = '"')
        · rw [if_pos hq, if_pos hq]
          exact ih _ hr
        · rw [if_neg hq, if_neg hq]
          cases he : wrapEval ev tname (c :: cs) ns pos with
          | error e => dsimp only
          | ok fv =>
            dsimp only
            cases ha : ev.app fv base with
            | error e => dsimp only
            | ok b2 =>
              dsimp only
              exact ih _ hr
  · intro f pos code st base v hhead hrun
    simp only [interpCode, hhead, hrun]

/-- Witness for C6: a quoted fallback filter followed by an ordinary
filter on a blank base value behaves exactly as the specification
describes. -/
theorem claimC6_witness :
    runFilters evC6 none (1, 1) [] [(str ("'fb'")), (str ("up"))] (Value.vstr []) =
      specFilterChain evC6 none (1, 1) [] [(str ("'fb'")), (str ("up"))] (Value.vstr []) :=
  (claimC6_theorem evC6 none).1 (1, 1) [] [(str ("'fb'")), (str ("up"))] (Value.vstr [])
    (by decide)

/-- No interpreter path stores into `defs` under any key other than
`__inherit__`: only the `inherit` directive writes to `defs`
(tempita.py line 223); in particular `py` blocks bind names into the
namespace, never into `defs`. -/
theorem interp_defs_stable (ev : Ev) (tname : Option Str) :
    ∀ fuel,
      (∀ n st k, ¬ k = (str ("__inherit__")) →
         dictGet (interpCode ev tname fuel n st).1.defs k = dictGet st.defs k) ∧
      (∀ l st k, ¬ k = (str ("__inherit__")) →
         dictGet (interpCodes ev tname fuel l st).1.defs k = dictGet st.defs k) ∧
      (∀ vars items content st k, ¬ k = (str ("__inherit__")) →
         dictGet (interpFor ev tname fuel vars items content st).1.defs k = dictGet st.defs k) ∧
      (∀ branches st k, ¬ k = (str ("__inherit__")) →
         dictGet (interpIf ev tname fuel branches st).1.defs k = dictGet st.defs k) := by
  intro fuel
  induction fuel with
  | zero =>
    exact ⟨fun _ _ _ _ => rfl, fun _ _ _ _ => rfl, fun _ _ _ _ _ _ => rfl, fun _ _ _ _ => rfl⟩
  | succ f ih =>
    obtain ⟨ihC, ihL, ihF, ihI⟩ := ih
    refine ⟨?_, ?_, ?_, ?_⟩
    · intro n st k hk
      cases n with
      | lit s => rfl
      | py pos code =>
        cases hx : wrapExec ev tname code st.ns pos with
        | ok ns2 => simp [interpCode, hx]
        | error e => simp [interpCode, hx]
      | contN pos => rfl
      | brkN pos => rfl
      | commentN pos t2 => rfl
      | forN pos vars iterE body =>
        cases hv : wrapEval ev tname iterE st.ns pos with
        | error e => simp [interpCode, hv]
        | ok v =>
          cases hi : pyIterate v with
          | none => simp [interpCode, hv, hi]
          | some items =>
            simp only [interpCode, hv, hi]
            exact ihF vars items body st k hk
      | condN pos branches =>
        simp only [interpCode]
        exact ihI branches st k hk
      | exprN pos code =>
        simp only [interpCode]
        cases hb : wrapEval ev tname ((pySplitChar '|' code).headD []) st.ns pos with
        | error e => rfl
        | ok base =>
          dsimp only
          cases hr : runFilters ev tname pos st.ns (pySplitChar '|' code).tail base with
          | error e => rfl
          | ok v => rfl
      | defaultN pos var code =>
        by_cases hd : dictHas st.ns var = true
        · simp [interpCode, hd]
        · simp only [interpCode]
          rw [if_neg hd]
          cases he : wrapEval ev tname code st.ns pos with
          | ok v => rfl
          | error e => rfl
      | inheritN pos code =>
        cases he : wrapEval ev tname code st.ns pos with
        | error e => simp [interpCode, he]
        | ok v =>
          simp only [interpCode, he]
          exact dictGet_set_other _ _ _ _ (fun hh => hk hh.symm)
    · intro l st k hk
      cases l with
      | nil => rfl
      | cons n rest =>
        rcases hc : interpCode ev tname f n st with ⟨st2, c⟩
        have h1 : dictGet st2.defs k = dictGet st.defs k := by
          have h2 := ihC n st k hk
          rwa [hc] at h2
        cases c with
        | normal =>
          simp only [interpCodes, hc]
          rw [ihL rest st2 k hk, h1]
        | contS => simp only [interpCodes, hc]; exact h1
        | brkS => simp only [interpCodes, hc]; exact h1
        | err e => simp only [interpCodes, hc]; exact h1
    · intro vars items content st k hk
      cases items with
      | nil => rfl
      | cons item rest =>
        cases hb : bindVars vars item st.ns with
        | error e => simp [interpFor, hb]
        | ok ns2 =>
          rcases hc : interpCodes ev tname f content {st with ns := ns2} with ⟨st2, c⟩
          have h1 : dictGet st2.defs k = dictGet st.defs k := by
            have h2 := ihL content {st with ns := ns2} k hk
            rwa [hc] at h2
          cases c with
          | normal =>
            simp only [interpFor, hb, hc]
            rw [ihF vars rest content st2 k hk, h1]
          | contS =>
            simp only [interpFor, hb, hc]
            rw [ihF vars rest content st2 k hk, h1]
          | brkS => simp only [interpFor, hb, hc]; exact h1
          | err e => simp only [interpFor, hb, hc]; exact h1
    · intro branches st k hk
      cases branches with
      | nil => rfl
      | cons b rest =>
        obtain ⟨kind, pos, test, body⟩ := b
        by_cases hKind : kind = (str ("else"))
        · simp only [interpIf]
          rw [if_pos hKind]
          exact ihL body st k hk
        · simp only [interpIf]
          rw [if_neg hKind]
          cases he : wrapEval ev tname (test.getD []) st.ns pos with
          | error e => rfl
          | ok v =>
            dsimp only
            by_cases ht : pyTruthy v = true
            · rw [if_pos ht]
              exact ihL body st k hk
            · rw [if_neg ht]
              exact ihI rest st k hk

/-- An evaluator for the C3 instance: the statement `x=1` binds `x` to
`1` in the namespace, everything else fails. -/
def evC3x : Ev :=
  ⟨fun _ _ => .error (str ("name error")),
   fun code ns =>
     if code = (str ("x=1")) then .ok (dictSet ns (str ("x")) (Value.vint 1))
     else .error (str ("bad statement")),
   fun _ v => .ok v⟩

/-- Claim C3: two parts of the claim are false on the code.  First,
`defs` is always empty after rendering (only `__inherit__` is ever
stored into it and `substitute` pops it), so the proxy exposes no
attribute for the name `x` that the `py` block bound into the
namespace.  Second, the object bound as `self` is the `TemplateObject`
itself, whose missing-attribute access raises `AttributeError`
(modelled by `none`) rather than resolving to the `Empty` sentinel. -/
theorem claimC3_counterexample :
    (substituteRun evC3x none [] [Node.py (1, 3) (str ("x=1")), Node.lit (str ("B"))] [] 9).output =
      (str ("B")) ∧
    dictGet (substituteRun evC3x none [] [Node.py (1, 3) (str ("x=1")),
      Node.lit (str ("B"))] [] 9).callerNs (str ("x")) = some (Value.vint 1) ∧
    (substituteRun evC3x none [] [Node.py (1, 3) (str ("x=1")), Node.lit (str ("B"))] [] 9).defs =
      [] ∧
    tobjGetAttr (buildSelfAttrs none [] (str ("B"))) (str ("x")) = none ∧
    ¬ (none : Option Value) = some Value.vempty := by
  refine ⟨rfl, rfl, rfl, rfl, ?_⟩
  intro h
  exact Option.noConfusion h

/-- Claim C3, amended: the proxy exposes the child's rendered body
through its `body` attribute, but exposes no attribute per name bound
by `py` blocks (the `defs` mapping handed to it is always empty);
direct attribute access on the proxy for an unbound name fails
(`AttributeError`), and it is the proxy's `get` wrapper on which any
unbound name resolves to the shared `Empty` sentinel, which
stringifies to the empty string, iterates as an empty sequence, is
falsy, and returns itself when called. -/
theorem claimC3_theorem (ev : Ev) (tname : Option Str) :
    (∀ fuel parsed base kw k,
       dictGet (substituteRun ev tname base parsed kw fuel).defs k = none) ∧
    (∀ tn defs body,
       tobjGetAttr (buildSelfAttrs tn defs body) (str ("body")) = some (Value.vstr body)) ∧
    (∀ tn defs body a, dictGet defs a = none →
       ¬ a = (str ("_TemplateObject__name")) → ¬ a = (str ("get")) → ¬ a = (str ("body")) →
       tobjGetAttr (buildSelfAttrs tn defs body) a = none ∧
       getterGetAttr (buildSelfAttrs tn defs body) a = Value.vempty) ∧
    (pyToString Value.vempty = [] ∧ pyIterate Value.vempty = some [] ∧
       (∀ args, emptyCall args = Value.vempty) ∧ pyTruthy Value.vempty = false) := by
  refine ⟨?_, ?_, ?_, rfl, rfl, fun _ => rfl, rfl⟩
  · intro fuel parsed base kw k
    show dictGet (dictRemove
      (interpCodes ev tname fuel parsed ⟨substituteNs kw tname base, [], []⟩).1.defs
      (str ("__inherit__"))) k = none
    rw [dictGet_remove]
    by_cases hk : k = (str ("__inherit__"))
    · rw [if_pos hk]
    · rw [if_neg hk]
      exact ((interp_defs_stable ev tname fuel).2.1) parsed
        ⟨substituteNs kw tname base, [], []⟩ k hk
  · intro tn defs body
    exact dictGet_set_self _ _ _
  · intro tn defs body a hdefs h1 h2 h3
    have hattr : tobjGetAttr (buildSelfAttrs tn defs body) a = none := by
      simp only [buildSelfAttrs, tobjGetAttr]
      rw [dictGet_set_other _ _ _ _ (fun hh => h3 hh.symm),
        dictGet_update_notin _ _ _ hdefs, dictGet, if_neg (fun hh => h1 hh.symm),
        dictGet, if_neg (fun hh => h2 hh.symm)]
      rfl
    refine ⟨hattr, ?_⟩
    simp [getterGetAttr, hattr]

/-- Witness for C3: on a proxy for a child with empty `defs` and body
`B`, the unbound name `zz` raises on the object and resolves to
`Empty` through the `get` wrapper. -/
theorem claimC3_witness :
    tobjGetAttr (buildSelfAttrs none [] (str ("B"))) (str ("zz")) = none ∧
    getterGetAttr (buildSelfAttrs none [] (str ("B"))) (str ("zz")) = Value.vempty :=
  (claimC3_theorem evNull none).2.2.1 none [] (str ("B")) (str ("zz")) rfl
    (by decide) (by decide) (by decide)

/-- The refinement relation the trimming pass respects: same length,
and every entry is either unchanged or a literal replaced by a
literal (directive tokens are untouched). -/
def LitRefine (ts ts2 : List Tok) : Prop :=
  ts2.length = ts.length ∧
  ∀ j, ts2.get? j = ts.get? j ∨
    ∃ s s2, ts.get? j = some (Tok.lit s) ∧ ts2.get? j = some (Tok.lit s2)

/-- `LitRefine` is reflexive. -/
theorem litRefine_refl (ts : List Tok) : LitRefine ts ts :=
  ⟨rfl, fun _ => Or.inl rfl⟩

/-- `LitRefine` is transitive. -/
theorem litRefine_trans {a b c : List Tok} (h1 : LitRefine a b) (h2 : LitRefine b c) :
    LitRefine a c := by
  refine ⟨h2.1.trans h1.1, fun j => ?_⟩
  rcases h2.2 j with hcb | ⟨s, s2, hb, hc⟩
  · rcases h1.2 j with hba | ⟨s, s2, ha, hb⟩
    · exact Or.inl (hcb.trans hba)
    · exact Or.inr ⟨s, s2, ha, hcb.trans hb⟩
  · rcases h1.2 j with hba | ⟨t, t2, ha, hb2⟩
    · exact Or.inr ⟨s, s2, hba ▸ hb, hc⟩
    · exact Or.inr ⟨t, s2, ha, hc⟩

/-- Replacing an entry that is a literal with another literal is a
`LitRefine` step. -/
theorem litRefine_set (ts : List Tok) (a : Nat) (s x : Str)
    (h : ts.get? a = some (Tok.lit s)) : LitRefine ts (ts.set a (Tok.lit x)) := by
  refine ⟨List.length_set ts a _, fun j => ?_⟩
  by_cases hj : a = j
  · subst hj
    have hlt : a < ts.length := by
      rcases List.get?_eq_some.mp h with ⟨hl, _⟩
      exact hl
    exact Or.inr ⟨s, x, h, List.get?_set_eq_of_lt _ hlt⟩
  · exact Or.inl (List.get?_set_ne _ ts hj)

/-- `trimPrevUpd` writes only at indices `0` and `i - 1`. -/
theorem trimPrevUpd_get?_ne (ts : List Tok) (i : Nat) (prev : Str) (j : Nat)
    (h0 : ¬ j = 0) (h1 : ¬ j = i - 1) :
    (trimPrevUpd ts i prev).get? j = ts.get? j := by
  unfold trimPrevUpd
  split
  · rfl
  · split
    · exact List.get?_set_ne _ ts (fun hh => h0 hh.symm)
    · split
      · exact List.get?_set_ne _ ts (fun hh => h1 hh.symm)
      · rfl

/-- `trimPrevUpd` is a `LitRefine` step when the preceding entry it
may touch is a literal. -/
theorem litRefine_trimPrevUpd (ts : List Tok) (i : Nat) (prev : Str)
    (hev : prev = [] ∨ ts.get? (i - 1) = some (Tok.lit prev)) :
    LitRefine ts (trimPrevUpd ts i prev) := by
  unfold trimPrevUpd
  split
  · exact litRefine_refl ts
  · rename_i hne
    have hg : ts.get? (i - 1) = some (Tok.lit prev) := by
      rcases hev with h | h
      · exact absurd h hne
      · exact h
    split
    · rename_i hc
      have h0 : ts.get? 0 = some (Tok.lit prev) := by
        rw [hc.1] at hg
        exact hg
      exact litRefine_set ts 0 prev [] h0
    · split
      · exact litRefine_set ts (i - 1) prev _ hg
      · exact litRefine_refl ts

/-- `trimNextUpd` is a `LitRefine` step when the following entry it
may touch is a literal. -/
theorem litRefine_trimNextUpd (ts : List Tok) (i n : Nat) (next : Str)
    (hev : next = [] ∨ ts.get? (i + 1) = some (Tok.lit next)) :
    LitRefine ts (trimNextUpd ts i n next) := by
  unfold trimNextUpd
  split
  · exact litRefine_refl ts
  · rename_i hne
    have hg : ts.get? (i + 1) = some (Tok.lit next) := by
      rcases hev with h | h
      · exact absurd h hne
      · exact h
    split
    · exact litRefine_set ts (i + 1) next [] hg
    · split
      · exact litRefine_set ts (i + 1) next _ hg
      · exact litRefine_refl ts

/-- One step of the trimming pass is a `LitRefine` step. -/
theorem litRefine_trimStep (ts : List Tok) (i : Nat) : LitRefine ts (trimStep ts i) := by
  unfold trimStep
  split
  · exact litRefine_refl ts
  · exact litRefine_refl ts
  · split
    · exact litRefine_refl ts
    · split
      · rename_i prev next heqp heqn
        split
        · have hprev : prev = [] ∨ ts.get? (i - 1) = some (Tok.lit prev) := by
            by_cases h0 : i = 0
            · rw [if_pos h0] at heqp
              exact Or.inl (Option.some.inj heqp).symm
            · rw [if_neg h0] at heqp
              right
              cases hgp : ts.get? (i - 1) with
              | none => rw [hgp] at heqp; exact Option.noConfusion heqp
              | some tok =>
                cases tok with
                | lit s =>
                  rw [hgp] at heqp
                  have hsp : s = prev := Option.some.inj heqp
                  rw [hsp]
                | dir d p => rw [hgp] at heqp; exact Option.noConfusion heqp
          have hnext : next = [] ∨ ts.get? (i + 1) = some (Tok.lit next) := by
            by_cases hn : i + 1 ≥ ts.length
            · rw [if_pos hn] at heqn
              exact Or.inl (Option.some.inj heqn).symm
            · rw [if_neg hn] at heqn
              right
              cases hgn : ts.get? (i + 1) with
              | none => rw [hgn] at heqn; exact Option.noConfusion heqn
              | some tok =>
                cases tok with
                | lit s =>
                  rw [hgn] at heqn
                  have hsn : s = next := Option.some.inj heqn
                  rw [hsn]
                | dir d p => rw [hgn] at heqn; exact Option.noConfusion heqn
          have hA : LitRefine ts (trimPrevUpd ts i prev) :=
            litRefine_trimPrevUpd ts i prev hprev
          have hnext2 : next = [] ∨
              (trimPrevUpd ts i prev).get? (i + 1) = some (Tok.lit next) := by
            rcases hnext with h | h
            · exact Or.inl h
            · right
              rw [trimPrevUpd_get?_ne ts i prev (i + 1) (by omega) (by omega)]
              exact h
          exact litRefine_trans hA
            (litRefine_trimNextUpd (trimPrevUpd ts i prev) i ts.length next hnext2)
        · exact litRefine_refl ts
      · exact litRefine_refl ts

/-- The whole trimming pass is a `LitRefine` step. -/
theorem litRefine_trimLex (ts : List Tok) : LitRefine ts (trimLex ts) := by
  have hfold : ∀ (idxs : List Nat) (acc : List Tok), LitRefine acc (idxs.foldl trimStep acc) := by
    intro idxs
    induction idxs with
    | nil => intro acc; exact litRefine_refl acc
    | cons i rest ih =>
      intro acc
      exact litRefine_trans (litRefine_trimStep acc i) (ih (trimStep acc i))
  exact hfold (List.range ts.length) ts

/-- Claim C9: the claim that the Whitespace Trimmer is idempotent is
false.  Trimming removes only one leading whitespace-newline run from
the literal after a standalone directive (tempita.py lines 555-557),
so a blank line left behind is trimmed again by a second pass: on the
lexed tokens of a template whose `if` line is followed by a blank
line, the second application of `trim_lex` shortens the literal
further. -/
theorem claimC9_counterexample :
    lexRaw (str ("\x7b\x7bif x\x7d\x7d\n\nA\n\x7b\x7bendif\x7d\x7d")) =
      .ok [Tok.dir (str ("if x")) (1, 3), Tok.lit (str ("\n\nA\n")),
           Tok.dir (str ("endif")) (4, 3)] ∧
    trimLex [Tok.dir (str ("if x")) (1, 3), Tok.lit (str ("\n\nA\n")),
             Tok.dir (str ("endif")) (4, 3)] =
      [Tok.dir (str ("if x")) (1, 3), Tok.lit (str ("\nA\n")),
       Tok.dir (str ("endif")) (4, 3)] ∧
    trimLex [Tok.dir (str ("if x")) (1, 3), Tok.lit (str ("\nA\n")),
             Tok.dir (str ("endif")) (4, 3)] =
      [Tok.dir (str ("if x")) (1, 3), Tok.lit (str ("A\n")),
       Tok.dir (str ("endif")) (4, 3)] ∧
    ¬ [Tok.dir (str ("if x")) (1, 3), Tok.lit (str ("\nA\n")),
       Tok.dir (str ("endif")) (4, 3)] =
      [Tok.dir (str ("if x")) (1, 3), Tok.lit (str ("A\n")),
       Tok.dir (str ("endif")) (4, 3)] :=
  ⟨rfl, rfl, rfl, by decide⟩

/-- Claim C9, amended: a second application of the Whitespace Trimmer
preserves the token count and every directive token (text and
position) exactly as after one application; only literal chunks can
change (a literal may lose further leading blank lines), so the pass
is not a fixed point in general. -/
theorem claimC9_theorem (ts : List Tok) :
    (trimLex (trimLex ts)).length = (trimLex ts).length ∧
    ∀ j d p, ((trimLex ts).get? j = some (Tok.dir d p) ↔
              (trimLex (trimLex ts)).get? j = some (Tok.dir d p)) := by
  obtain ⟨hlen, hpt⟩ := litRefine_trimLex (trimLex ts)
  refine ⟨hlen, ?_⟩
  intro j d p
  rcases hpt j with h | ⟨s, s2, h1, h2⟩
  · rw [h]
  · constructor
    · intro hd
      rw [h1] at hd
      exact Tok.noConfusion (Option.some.inj hd)
    · intro hd
      rw [h2] at hd
      exact Tok.noConfusion (Option.some.inj hd)

/-- Unfolding `afterLastNL` on a cons. -/
theorem afterLastNL_cons (c : Char) (rest : Str) :
    afterLastNL (c :: rest) =
      if '\n' ∈ rest then afterLastNL rest else if c = '\n' then rest else c :: rest := rfl

/-- A string without newlines is its own tail-after-last-newline. -/
theorem afterLastNL_of_not_mem (t : Str) (h : '\n' ∉ t) : afterLastNL t = t := by
  induction t with
  | nil => rfl
  | cons c rest ih =>
    have hc : ¬ c = '\n' := fun hh => h (List.mem_cons.mpr (Or.inl hh.symm))
    have hr : '\n' ∉ rest := fun hm => h (List.mem_cons_of_mem _ hm)
    rw [afterLastNL_cons, if_neg hr, if_neg hc]

/-- Newline count of a cons. -/
theorem countNL_cons (c : Char) (t : Str) :
    countNL (c :: t) = countNL t + (if c = '\n' then 1 else 0) := by
  by_cases hc : c = '\n'
  · subst hc; simp [countNL, List.count_cons]
  · simp [countNL, List.count_cons, hc]

/-- Unfolding `pySplitlines` on a cons. -/
theorem pySplitlines_cons (c : Char) (rest : Str) :
    pySplitlines (c :: rest) =
      if c = '\r' then
        (match rest with
         | '\n' :: rest2 => [] :: pySplitlines rest2
         | other => [] :: pySplitlines other)
      else if c = '\n' then [] :: pySplitlines rest
      else match pySplitlines rest with
           | [] => [[c]]
           | l :: ls => (c :: l) :: ls := by
  rw [pySplitlines.eq_def]
  rfl

/-- For a carriage-return-free, non-empty string not ending in a
newline, `splitlines` has one line more than the newline count, and
its last line is the text after the last newline. -/
theorem pySplitlines_char (t : Str) :
    '\r' ∉ t → ¬ t = [] → t.getLast? ≠ some '\n' →
    (pySplitlines t).getLastD [] = afterLastNL t ∧
    (pySplitlines t).length = countNL t + 1 := by
  induction t with
  | nil => intro _ hne _; exact absurd rfl hne
  | cons c rest ih =>
    intro hcr hne hlast
    have hcnr : ¬ c = '\r' := fun hh => hcr (List.mem_cons.mpr (Or.inl hh.symm))
    have hcrr : '\r' ∉ rest := fun hm => hcr (List.mem_cons_of_mem _ hm)
    cases rest with
    | nil =>
      have hcn : ¬ c = '\n' := by
        intro hh
        apply hlast
        rw [hh]
        rfl
      simp only [pySplitlines]
      rw [if_neg hcnr, if_neg hcn]
      refine ⟨?_, ?_⟩
      · rw [afterLastNL_cons]
        rw [if_neg (List.not_mem_nil '\n'), if_neg hcn]
        rfl
      · simp [countNL, List.count_cons, hcn]
    | cons d rest2 =>
      have hlast2 : (d :: rest2).getLast? ≠ some '\n' := by
        rwa [List.getLast?_cons_cons] at hlast
      have hne2 : ¬ (d :: rest2) = [] := fun hh => List.noConfusion hh
      obtain ⟨ih1, ih2⟩ := ih hcrr hne2 hlast2
      by_cases hcn : c = '\n'
      · subst hcn
        rw [pySplitlines_cons, if_neg hcnr, if_pos rfl]
        constructor
        · rw [List.getLastD_cons, ih1, afterLastNL_cons '\n' (d :: rest2)]
          by_cases hm : '\n' ∈ d :: rest2
          · rw [if_pos hm]
          · rw [if_neg hm, if_pos rfl, afterLastNL_of_not_mem _ hm]
        · rw [List.length_cons, ih2, countNL_cons '\n' (d :: rest2)]
          simp
      · rw [pySplitlines_cons, if_neg hcnr, if_neg hcn]
        rcases hL : pySplitlines (d :: rest2) with _ | ⟨l, ls⟩
        · rw [hL] at ih2
          simp at ih2
        · rw [hL] at ih1 ih2
          constructor
          · cases ls with
            | nil =>
              have hcount : countNL (d :: rest2) = 0 := by
                simp only [List.length_cons, List.length_nil] at ih2
                omega
              have hnm : '\n' ∉ d :: rest2 := by
                rw [countNL] at hcount
                exact List.count_eq_zero.mp hcount
              rw [afterLastNL_cons c (d :: rest2), if_neg hnm, if_neg hcn]
              have hl : l = d :: rest2 := by
                have h2 := ih1
                rw [afterLastNL_of_not_mem _ hnm] at h2
                simpa using h2
              rw [show ((c :: l) :: ([] : List Str)).getLastD [] = c :: l from rfl, hl]
            | cons l2 ls2 =>
              have hmem : '\n' ∈ d :: rest2 := by
                by_contra hnm
                have hc0 : countNL (d :: rest2) = 0 := by
                  rw [countNL]
                  exact List.count_eq_zero.mpr hnm
                rw [hc0] at ih2
                simp at ih2
              rw [afterLastNL_cons c (d :: rest2), if_pos hmem]
              have h1 : ((c :: l) :: l2 :: ls2).getLastD [] = (l2 :: ls2).getLastD (c :: l) :=
                List.getLastD_cons _ _ _
              have h2 : (l :: l2 :: ls2).getLastD [] = (l2 :: ls2).getLastD l :=
                List.getLastD_cons _ _ _
              have h3 : (l2 :: ls2).getLastD (c :: l) = (l2 :: ls2).getLastD l := by
                rw [List.getLastD_cons, List.getLastD_cons]
              rw [h1, h3, ← h2, ih1]
          · rw [countNL_cons c (d :: rest2), if_neg hcn]
            simp only [List.length_cons] at ih2 ⊢
            omega

/-- `find_position` at an index whose prefix is clean (no carriage
return, non-empty, not ending in a newline) returns the 1-indexed line
(one more than the newlines before the index) and the column (one more
than the characters since the last newline). -/
theorem findPosition_char (s : Str) (i : Nat) (hcr : '\r' ∉ s.take i)
    (hne : ¬ s.take i = []) (hlast : (s.take i).getLast? ≠ some '\n') :
    findPosition s i 0 = (countNL (s.take i) + 1, (afterLastNL (s.take i)).length + 1) := by
  obtain ⟨h1, h2⟩ := pySplitlines_char (s.take i) hcr hne hlast
  simp only [findPosition]
  rw [h2, h1]

/-- Unfolding `tokenMatches` on two leading characters. -/
theorem tokenMatches_cons2 (c d : Char) (rest2 : Str) (i : Nat) :
    tokenMatches (c :: d :: rest2) i =
      if c = '{' ∧ d = '{' then (i, true) :: tokenMatches rest2 (i + 2)
      else if c = '}' ∧ d = '}' then (i, false) :: tokenMatches rest2 (i + 2)
      else tokenMatches (d :: rest2) (i + 1) := rfl

/-- Every opening-delimiter match reported by `tokenMatches` points at
a real `\x7b\x7b` in the text. -/
theorem tokenMatches_open_chars (t : Str) (i : Nat) :
    ∀ j, (j, true) ∈ tokenMatches t i →
      i ≤ j ∧ ∃ rest, t.drop (j - i) = '{' :: '{' :: rest := by
  have H : ∀ (n : Nat) (t : Str), t.length ≤ n → ∀ (i j : Nat),
      (j, true) ∈ tokenMatches t i →
      i ≤ j ∧ ∃ rest, t.drop (j - i) = '{' :: '{' :: rest := by
    intro n
    induction n with
    | zero =>
      intro t ht i j hmem
      have : t = [] := List.length_eq_zero.mp (Nat.le_zero.mp ht)
      subst this
      exact absurd hmem (List.not_mem_nil _)
    | succ n ihn =>
      intro t ht i j hmem
      cases t with
      | nil => exact absurd hmem (List.not_mem_nil _)
      | cons c rest =>
        cases rest with
        | nil => exact absurd hmem (List.not_mem_nil _)
        | cons d rest2 =>
          rw [tokenMatches_cons2] at hmem
          have hlen2 : rest2.length ≤ n := by
            simp only [List.length_cons] at ht
            omega
          have hlen1 : (d :: rest2).length ≤ n := by
            simp only [List.length_cons] at ht ⊢
            omega
          by_cases h1 : c = '{' ∧ d = '{'
          · rw [if_pos h1] at hmem
            rcases List.mem_cons.mp hmem with hh | hh
            · have hj : j = i := congrArg Prod.fst hh
              subst hj
              refine ⟨Nat.le_refl j, rest2, ?_⟩
              rw [Nat.sub_self, h1.1, h1.2]
              exact List.drop_zero _
            · obtain ⟨hle, r2, hr2⟩ := ihn rest2 hlen2 (i + 2) j hh
              refine ⟨by omega, r2, ?_⟩
              have hji : j - i = (j - (i + 2)) + 1 + 1 := by omega
              rw [hji, List.drop_succ_cons, List.drop_succ_cons]
              exact hr2
          · rw [if_neg h1] at hmem
            by_cases h2 : c = '}' ∧ d = '}'
            · rw [if_pos h2] at hmem
              rcases List.mem_cons.mp hmem with hh | hh
              · exact absurd (congrArg Prod.snd hh) (by simp)
              · obtain ⟨hle, r2, hr2⟩ := ihn rest2 hlen2 (i + 2) j hh
                refine ⟨by omega, r2, ?_⟩
                have hji : j - i = (j - (i + 2)) + 1 + 1 := by omega
                rw [hji, List.drop_succ_cons, List.drop_succ_cons]
                exact hr2
            · rw [if_neg h2] at hmem
              obtain ⟨hle, r2, hr2⟩ := ihn (d :: rest2) hlen1 (i + 1) j hmem
              refine ⟨by omega, r2, ?_⟩
              have hji : j - i = (j - (i + 1)) + 1 := by omega
              rw [hji, List.drop_succ_cons]
              exact hr2
  exact fun j hmem => H t.length t (Nat.le_refl _) i j hmem

/-- `dirToks` distributes over append. -/
theorem dirToks_append (a b : List Tok) : dirToks (a ++ b) = dirToks a ++ dirToks b := by
  induction a with
  | nil => rfl
  | cons t rest ih =>
    cases t with
    | lit s => simpa [dirToks] using ih
    | dir d p => simp [dirToks, ih]

/-- A `LitRefine` step (the trimming pass) leaves the directive-token
sequence untouched. -/
theorem dirToks_litRefine : ∀ {ts ts2 : List Tok}, LitRefine ts ts2 → dirToks ts2 = dirToks ts := by
  intro ts
  induction ts with
  | nil =>
    intro ts2 h
    have h0 : ts2 = [] := List.length_eq_zero.mp h.1
    rw [h0]
  | cons a l ih =>
    intro ts2 h
    cases ts2 with
    | nil =>
      have h0 := h.1
      simp at h0
    | cons b l2 =>
      have htail : LitRefine l l2 := by
        refine ⟨?_, ?_⟩
        · have h0 := h.1
          simpa using h0
        · intro j
          have h0 := h.2 (j + 1)
          simpa using h0
      have hhead := h.2 0
      cases a with
      | dir d p =>
        have hb : b = Tok.dir d p := by
          rcases hhead with hh | ⟨s1, s2, h1, h2⟩
          · simpa using hh
          · simp [dirToks] at h1
        subst hb
        simp [dirToks, ih htail]
      | lit x =>
        rcases hhead with hh | ⟨s1, s2, h1, h2⟩
        · have hb : b = Tok.lit x := by simpa using hh
          subst hb
          simp [dirToks, ih htail]
        · have hb : b = Tok.lit s2 := by simpa using h2
          subst hb
          simp [dirToks, ih htail]

/-- The opening index of every delimiter pair is an opening match of
the match list. -/
theorem delimPairs_mem : ∀ (ms : List (Nat × Bool)) (j k : Nat),
    (j, k) ∈ delimPairs ms → (j, true) ∈ ms := by
  have H : ∀ (n : Nat) (ms : List (Nat × Bool)), ms.length ≤ n → ∀ (j k : Nat),
      (j, k) ∈ delimPairs ms → (j, true) ∈ ms := by
    intro n
    induction n with
    | zero =>
      intro ms hms j k hmem
      have h0 : ms = [] := List.length_eq_zero.mp (Nat.le_zero.mp hms)
      subst h0
      exact absurd hmem (List.not_mem_nil _)
    | succ n ihn =>
      intro ms hms j k hmem
      cases ms with
      | nil => exact absurd hmem (List.not_mem_nil _)
      | cons m rest =>
        obtain ⟨a, b⟩ := m
        cases b with
        | false =>
          have hred : delimPairs ((a, false) :: rest) = delimPairs rest := rfl
          rw [hred] at hmem
          have hlen : rest.length ≤ n := by
            simp only [List.length_cons] at hms
            omega
          exact List.mem_cons_of_mem _ (ihn rest hlen j k hmem)
        | true =>
          cases rest with
          | nil =>
            have hred : delimPairs [(a, true)] = [] := rfl
            rw [hred] at hmem
            exact absurd hmem (List.not_mem_nil _)
          | cons m2 rest2 =>
            obtain ⟨c, d⟩ := m2
            cases d with
            | false =>
              have hred : delimPairs ((a, true) :: (c, false) :: rest2) =
                  (a, c) :: delimPairs rest2 := rfl
              rw [hred] at hmem
              rcases List.mem_cons.mp hmem with hh | hh
              · have hja : j = a := congrArg Prod.fst hh
                subst hja
                exact List.mem_cons_self _ _
              · have hlen : rest2.length ≤ n := by
                  simp only [List.length_cons] at hms
                  omega
                exact List.mem_cons_of_mem _
                  (List.mem_cons_of_mem _ (ihn rest2 hlen j k hh))
            | true =>
              have hred : delimPairs ((a, true) :: (c, true) :: rest2) =
                  delimPairs ((c, true) :: rest2) := rfl
              rw [hred] at hmem
              have hlen : ((c, true) :: rest2).length ≤ n := by
                simp only [List.length_cons] at hms ⊢
                omega
              exact List.mem_cons_of_mem _ (ihn _ hlen j k hmem)
  exact fun ms j k hmem => H ms.length ms (Nat.le_refl _) j k hmem

/-- Stepping `dirsSpecFrom` over an opening match: the pending
directive's saved position becomes `find_position` at the end of that
opening delimiter. -/
theorem dirsSpecFrom_open (s : Str) (j last : Nat) (lastPos : Pos) (ms : List (Nat × Bool)) :
    dirsSpecFrom s false last lastPos ((j, true) :: ms) =
      dirsSpecFrom s true (j + 2) (findPosition s (j + 2) 0) ms := by
  cases ms with
  | nil => rfl
  | cons m ms2 =>
    obtain ⟨k, b⟩ := m
    cases b with
    | false => rfl
    | true => rfl

/-- Stepping `dirsSpecFrom` over a closing match: the pending
directive is emitted with the saved opening position. -/
theorem dirsSpecFrom_close (s : Str) (k last : Nat) (lastPos : Pos) (ms : List (Nat × Bool)) :
    dirsSpecFrom s true last lastPos ((k, false) :: ms) =
      Tok.dir (pyStrip ((s.drop last).take (k - last))) lastPos :: dirsSpec s ms := rfl

/-- Invariant of the `lex` loop: the directive tokens of a successful
run are exactly those determined by the remaining delimiter matches
(one directive per opening/closing pair, each with the text between
its own delimiters and the position saved at the end of its own
opening delimiter). -/
theorem lexLoop_dirs (s : Str) :
    ∀ (ms : List (Nat × Bool)) (inE : Bool) (chunks : List Tok) (last : Nat) (lastPos : Pos)
      (ts : List Tok),
      lexLoop s ms inE chunks last lastPos = .ok ts →
      dirToks ts = dirToks chunks ++ dirsSpecFrom s inE last lastPos ms := by
  intro ms
  induction ms with
  | nil =>
    intro inE chunks last lastPos ts hok
    cases inE with
    | true => simp [lexLoop] at hok
    | false =>
      have hts : chunks ++ (if s.drop last = [] then [] else [Tok.lit (s.drop last)]) = ts := by
        simpa [lexLoop] using hok
      rw [← hts, dirToks_append]
      by_cases hdl : s.drop last = []
      · rw [if_pos hdl]
        rfl
      · rw [if_neg hdl]
        rfl
  | cons m ms ih =>
    intro inE chunks last lastPos ts hok
    obtain ⟨j, b⟩ := m
    cases b with
    | true =>
      cases inE with
      | true => simp [lexLoop] at hok
      | false =>
        have hok2 : lexLoop s ms true
            (chunks ++ (if (s.drop last).take (j - last) = [] then []
                        else [Tok.lit ((s.drop last).take (j - last))]))
            (j + 2) (findPosition s (j + 2) 0) = .ok ts := by
          simpa [lexLoop] using hok
        rw [ih true _ (j + 2) (findPosition s (j + 2) 0) ts hok2, dirToks_append,
          dirsSpecFrom_open]
        by_cases hdl : (s.drop last).take (j - last) = []
        · rw [if_pos hdl]
          simp [dirToks]
        · rw [if_neg hdl]
          simp [dirToks]
    | false =>
      cases inE with
      | false => simp [lexLoop] at hok
      | true =>
        have hok2 : lexLoop s ms false
            (chunks ++ [Tok.dir (pyStrip ((s.drop last).take (j - last))) lastPos])
            (j + 2) (findPosition s (j + 2) 0) = .ok ts := by
          simpa [lexLoop] using hok
        rw [ih false _ (j + 2) (findPosition s (j + 2) 0) ts hok2, dirToks_append,
          dirsSpecFrom_close]
        simp [dirToks, dirsSpecFrom]

/-- Claim C2: the claim that the recorded position is that of the
closing delimiter is false.  For the template consisting of one
directive `x`, the closing delimiter's match spans indices 3 to 5, so
its match position is `(1, 4)` (match start) or `(1, 6)` (match end),
yet the lexer records `(1, 3)` — the position computed at the end of
the opening delimiter's match (the loop stores `find_position` of each
match's end into `last_pos` and tags the directive with the previous
match's value, tempita.py lines 477, 490, 493). -/
theorem claimC2_counterexample :
    lexTokens (str ("\x7b\x7bx\x7d\x7d")) = .ok [Tok.dir (str ("x")) (1, 3)] ∧
    findPosition (str ("\x7b\x7bx\x7d\x7d")) 5 0 = (1, 6) ∧
    findPosition (str ("\x7b\x7bx\x7d\x7d")) 3 0 = (1, 4) ∧
    ¬ ((1, 3) : Pos) = ((1, 6) : Pos) ∧ ¬ ((1, 3) : Pos) = ((1, 4) : Pos) :=
  ⟨rfl, rfl, rfl, by decide, by decide⟩

/-- Claim C2, amended: the directive tokens the lexer records are
exactly one per opening/closing delimiter pair, in order: the n-th
directive token carries the stripped source text strictly between the
n-th pair's delimiters and the position `find_position` at the index
just after that pair's own opening `\x7b\x7b` match; every such opening
index holds a literal `\x7b\x7b` in the source, and for
carriage-return-free sources the recorded position is 1-indexed — the
line is one more than the number of newlines before the opening
delimiter's end, the column one more than the number of characters
since the last newline. -/
theorem claimC2_theorem (s : Str) (ts : List Tok) (hok : lexTokens s = .ok ts) :
    dirToks ts = (delimPairs (tokenMatches s 0)).map (dirOfPair s) ∧
    ∀ jk ∈ delimPairs (tokenMatches s 0),
      (∃ rest, s.drop jk.1 = '{' :: '{' :: rest) ∧
      ('\r' ∉ s →
        findPosition s (jk.1 + 2) 0 =
          (countNL (s.take (jk.1 + 2)) + 1, (afterLastNL (s.take (jk.1 + 2))).length + 1)) := by
  obtain ⟨ts0, hraw, hts⟩ : ∃ ts0, lexRaw s = .ok ts0 ∧ ts = trimLex ts0 := by
    cases hr : lexRaw s with
    | error e =>
      rw [lexTokens, hr] at hok
      exact Except.noConfusion hok
    | ok ts0 =>
      rw [lexTokens, hr] at hok
      exact ⟨ts0, rfl, (Except.ok.inj hok).symm⟩
  constructor
  · have h1 : dirToks ts = dirToks ts0 := by
      subst hts
      exact dirToks_litRefine (litRefine_trimLex ts0)
    have h2 : dirToks ts0 = dirsSpecFrom s false 0 (1, 1) (tokenMatches s 0) := by
      simpa [dirToks] using lexLoop_dirs s (tokenMatches s 0) false [] 0 (1, 1) ts0 hraw
    rw [h1, h2]
    rfl
  · intro jk hjk
    obtain ⟨j, k⟩ := jk
    have hopen : (j, true) ∈ tokenMatches s 0 := delimPairs_mem _ j k hjk
    obtain ⟨hle, rest, hdrop⟩ := tokenMatches_open_chars s 0 j hopen
    rw [Nat.sub_zero] at hdrop
    refine ⟨⟨rest, hdrop⟩, ?_⟩
    intro hcr
    have htake : s.take (j + 2) = (s.take j ++ ['{']) ++ ['{'] := by
      rw [List.take_add, hdrop]
      simp
    have hne : ¬ s.take (j + 2) = [] := by
      rw [htake]
      simp
    have hlast : (s.take (j + 2)).getLast? ≠ some '\n' := by
      rw [htake, List.getLast?_concat]
      simp
    have hcr2 : '\r' ∉ s.take (j + 2) := fun hm => hcr (List.take_subset _ _ hm)
    exact findPosition_char s (j + 2) hcr2 hne hlast

/-- Witness for C2: on `hey \x7b\x7byou\x7d\x7d` the single directive
token is exactly the one determined by its own delimiter pair, with
position `(1, 7)` — the index just after its opening delimiter at 4. -/
theorem claimC2_witness :
    dirToks [Tok.lit (str ("hey ")), Tok.dir (str ("you")) (1, 7)] =
      (delimPairs (tokenMatches (str ("hey \x7b\x7byou\x7d\x7d")) 0)).map
        (dirOfPair (str ("hey \x7b\x7byou\x7d\x7d"))) :=
  (claimC2_theorem (str ("hey \x7b\x7byou\x7d\x7d"))
    [Tok.lit (str ("hey ")), Tok.dir (str ("you")) (1, 7)] rfl).1
